import Mathlib

/-!
# lcc front end: parser, declarator resolver and scope environment

A shallow embedding of `src/Parser.cc`, `src/Utilities.cc` and
`src/CodeGenContext.h`.

Conventions of the embedding.

* The token stream is a `List Token`; the cursor `mTokCursor` is an index into
  it and `mTokEnd` is `toks.length`.  `++mTokCursor` is `cur + 1`.
* A parser method returns `Except Err (result × cursor)`; a method that cannot
  move the cursor returns `Except Err result`.
* `assert(e)` is executed (the build keeps assertions, as the parser relies on
  the side effects of `assert(Match(..))`); a failing assertion is
  `Err.assertFail`.  Reading `*mTokCursor` at `mTokEnd` is `Err.pastEnd`, a
  failing `std::get` is `Err.badVariantAccess`.
* Loops whose every iteration consumes a token run on a counter initialised
  with the number of remaining tokens plus one, which they cannot exhaust.
  The statement and expression grammar, which can recurse without consuming
  anything, takes an explicit `fuel`; `Err.outOfFuel` is not a result of the
  program.
-/

namespace lcc

/-! ## Tokens -/

/-- Modelled from the spec: the token kinds of the lexer, whose header is not
among the sources.  The kinds named in `Parser.cc` are listed; `other` stands
for every remaining kind. -/
inductive TokenType
  | kw_auto | kw_char | kw_short | kw_int | kw_long | kw_float | kw_double
  | kw_signed | kw_unsigned
  | kw_if | kw_else | kw_do | kw_while | kw_for | kw_break | kw_continue
  | kw_return
  | identifier | char_constant | string_literal | numeric_constant
  | l_paren | r_paren | l_brace | r_brace | comma | semi | star
  | equal | plus_equal | star_equal | minus_equal | slash_equal
  | percent_equal | less_less_equal | greater_greater_equal | pipe_equal
  | amp_equal | caret_equal
  | other (tag : Nat)
  deriving DecidableEq, Repr

/-- Modelled from the spec: the literal value of a token, one of
`{none, int32, double, string}`.  A double is carried as its bit pattern. -/
inductive TokenValue
  | monostate
  | int32 (v : Int)
  | double (bits : Nat)
  | string (s : String)
  deriving DecidableEq, Repr

/-- Modelled from the spec: a token, `{kind, value}`.  The source position is
never read by the parser and is left out. -/
structure Token where
  type : TokenType
  value : TokenValue
  deriving DecidableEq, Repr

/-! ## Abstract syntax -/

/-- Modelled from the spec: `TypeKind`, the type specifiers. -/
inductive TypeKind
  | Auto | Char | Short | Int | Long | Float | Double | Signed | UnSigned
  deriving DecidableEq, Repr

/-- Modelled from the spec: `Type`, either `PrimaryType` over a run of
specifiers or `PointerType` over a pointee. -/
inductive Ty
  | PrimaryType (typeKinds : List TypeKind)
  | PointerType (pointee : Ty)
  deriving DecidableEq, Repr

/-- Modelled from the spec: `ConstantExpr::ConstantValue`, one of
`{int32, string, double}`. -/
inductive ConstantValue
  | int32 (v : Int)
  | string (s : String)
  | double (bits : Nat)
  deriving DecidableEq, Repr

/-- Modelled from the spec: `ConstantExpr`, a literal. -/
structure ConstantExpr where
  value : ConstantValue
  deriving DecidableEq, Repr

/-- Modelled from the spec: `ConditionalExpr`, a node without content (the
production is a stub). -/
structure ConditionalExpr where
  deriving DecidableEq, Repr

/-- Modelled from the spec: `AssignExpr{lhs, op, rhs}`.  Both operands are
owning pointers; `none` is the null pointer. -/
inductive AssignExpr
  | mk (lhs : Option ConditionalExpr) (op : TokenType) (rhs : Option AssignExpr)
  deriving Repr

/-- Modelled from the spec: `Expr{head, tail}`, the comma expression. -/
structure Expr where
  assign : AssignExpr
  assignExps : List AssignExpr
  deriving Repr

/-- Modelled from the spec: `Declaration{type, name, optional init expr}`. -/
structure Declaration where
  ty : Ty
  name : String
  init : Option Expr
  deriving Repr

/-- Modelled from the spec: the statement variants. -/
inductive Stmt
  | BlockStmt (stmts : List Stmt)
  | IfStmt (cond : Expr) (thenStmt : Stmt) (elseStmt : Option Stmt)
  | WhileStmt (cond : Expr) (body : Stmt)
  | DoWhileStmt (body : Stmt) (cond : Expr)
  | ForStmt (init cond post : Option Expr) (body : Stmt)
  | ForDeclarationStmt (initDecl : Declaration) (cond post : Option Expr)
      (body : Stmt)
  | Declaration (decl : Declaration)
  | BreakStmt
  | ContinueStmt
  | ReturnStmt (expr : Option Expr)
  | ExprStmt (expr : Option Expr)
  deriving Repr

/-- Modelled from the spec: `BlockStmt{stmts}` as the node that
`ParseBlockStmt` returns and a `Function` owns. -/
structure BlockStmt where
  stmts : List Stmt
  deriving Repr

/-- Modelled from the spec: `Function{returnType, name, params, body}`. -/
structure Function where
  retType : Ty
  name : String
  params : List (Ty × String)
  body : Option BlockStmt
  deriving Repr

/-- Modelled from the spec: `GlobalDecl{type, name, initializer}`. -/
structure GlobalDecl where
  ty : Ty
  name : String
  init : Option ConstantExpr
  deriving DecidableEq, Repr

/-- Modelled from the spec: `Program`, the functions and the global
declarations, each in source order. -/
structure Program where
  funcs : List Function
  decls : List GlobalDecl
  deriving Repr

/-! ## Parser primitives -/

/-- The ways in which a run of the parser ends without a result. -/
inductive Err
  | assertFail
  | pastEnd
  | badVariantAccess
  | outOfFuel
  deriving DecidableEq, Repr

/-- The token under the cursor, `*mTokCursor`. -/
def tokAt (toks : List Token) (cur : Nat) : Except Err Token :=
  match toks[cur]? with
  | some t => .ok t
  | none => .error .pastEnd

/-- The C `assert`. -/
def assert (b : Bool) : Except Err Unit :=
  if b then .ok () else .error .assertFail

/-- The call `std::get<std::string>(value)`. -/
def getString : TokenValue → Except Err String
  | .string s => .ok s
  | _ => .error .badVariantAccess

/-- The call `std::get<int32_t>(value)`. -/
def getInt32 : TokenValue → Except Err Int
  | .int32 v => .ok v
  | _ => .error .badVariantAccess

/-- The lambda `TokenTypeToTypeKind`, `Parser.cc` lines 16-39. -/
def TokenTypeToTypeKind : TokenType → Except Err TypeKind
  | .kw_auto => .ok .Auto
  | .kw_char => .ok .Char
  | .kw_short => .ok .Short
  | .kw_int => .ok .Int
  | .kw_long => .ok .Long
  | .kw_float => .ok .Float
  | .kw_double => .ok .Double
  | .kw_signed => .ok .Signed
  | .kw_unsigned => .ok .UnSigned
  | _ => .error .assertFail

/-- The test of `Parser::IsTypeName` on a token kind. -/
def isTypeKw (type : TokenType) : Bool :=
  type == .kw_auto || type == .kw_char || type == .kw_short ||
  type == .kw_int || type == .kw_long || type == .kw_float ||
  type == .kw_double || type == .kw_signed || type == .kw_unsigned

/-- The method `Parser::IsTypeName`, lines 375-382. -/
def IsTypeName (toks : List Token) (cur : Nat) : Except Err Bool := do
  let t ← tokAt toks cur
  pure (isTypeKw t.type)

/-- The method `Parser::Match`, lines 384-390. -/
def Match (toks : List Token) (cur : Nat) (tokenType : TokenType) :
    Except Err (Bool × Nat) := do
  let t ← tokAt toks cur
  if t.type = tokenType then pure (true, cur + 1) else pure (false, cur)

/-- The method `Parser::Expect`, lines 392-397. -/
def Expect (toks : List Token) (cur : Nat) (tokenType : TokenType) :
    Except Err Bool := do
  let t ← tokAt toks cur
  if t.type = tokenType then pure true else .error .assertFail

/-- The method `Parser::Consume`, lines 399-407. -/
def Consume (toks : List Token) (cur : Nat) (tokenType : TokenType) :
    Except Err (Bool × Nat) := do
  let t ← tokAt toks cur
  if t.type = tokenType then pure (true, cur + 1) else .error .assertFail

/-- The method `Parser::Peek`, lines 408-410. -/
def Peek (toks : List Token) (cur : Nat) (tokenType : TokenType) :
    Except Err Bool := do
  let t ← tokAt toks cur
  pure (decide (t.type = tokenType))

/-! ## Types -/

/-- The overload `Parser::ParseType(baseType)`, lines 143-149: one
`PointerType` per `*`. -/
def ParseTypeFrom (toks : List Token) :
    Nat → Ty → Nat → Except Err (Ty × Nat)
  | 0, _, _ => .error .outOfFuel
  | n + 1, baseType, cur => do
    let (m, c1) ← Match toks cur .star
    if m then
      let (t, c2) ← ParseTypeFrom toks n baseType c1
      pure (.PointerType t, c2)
    else
      pure (baseType, c1)

/-- The loop of `Parser::ParseType`, lines 134-137. -/
def ParseType.loop (toks : List Token) :
    Nat → Nat → List TypeKind → Except Err (List TypeKind × Nat)
  | 0, _, _ => .error .outOfFuel
  | n + 1, cur, typeKinds => do
    let b ← IsTypeName toks cur
    if b then
      let t ← tokAt toks cur
      let k ← TokenTypeToTypeKind t.type
      ParseType.loop toks n (cur + 1) (typeKinds ++ [k])
    else
      pure (typeKinds, cur)

/-- The method `Parser::ParseType()`, lines 132-141. -/
def ParseType (toks : List Token) (cur : Nat) : Except Err (Ty × Nat) := do
  let (typeKinds, c1) ← ParseType.loop toks (toks.length - cur + 1) cur []
  assert (!typeKinds.isEmpty)
  ParseTypeFrom toks (toks.length - c1 + 1) (.PrimaryType typeKinds) c1

/-! ## Expressions -/

/-- The method `Parser::ParseConstantExpr`, lines 101-130.  The cursor is not
moved. -/
def ParseConstantExpr (toks : List Token) (cur : Nat) :
    Except Err (ConstantExpr × Nat) := do
  let t ← tokAt toks cur
  match t.type with
  | .char_constant =>
    let v ← getInt32 t.value
    pure (⟨.int32 v⟩, cur)
  | .string_literal =>
    let s ← getString t.value
    pure (⟨.string s⟩, cur)
  | .numeric_constant =>
    match t.value with
    | .monostate => pure (⟨.string ""⟩, cur)
    | .int32 v => pure (⟨.int32 v⟩, cur)
    | .double d => pure (⟨.double d⟩, cur)
    | .string s => pure (⟨.string s⟩, cur)
  | _ => .error .assertFail

/-- The method `Parser::ParseConditionalExpr`, lines 354-356: returns the null
pointer. -/
def ParseConditionalExpr (_toks : List Token) (cur : Nat) :
    Except Err (Option ConditionalExpr × Nat) :=
  pure (none, cur)

/-- The case labels of the switch in `Parser::ParseAssignExpr`, lines
334-344. -/
def isAssignOp (type : TokenType) : Bool :=
  match type with
  | .equal | .plus_equal | .star_equal | .minus_equal | .slash_equal
  | .percent_equal | .less_less_equal | .greater_greater_equal | .pipe_equal
  | .amp_equal | .caret_equal => true
  | _ => false

/-- The method `Parser::ParseAssignExpr`, lines 330-352. -/
def ParseAssignExpr (toks : List Token) :
    Nat → Nat → Except Err (AssignExpr × Nat)
  | 0, _ => .error .outOfFuel
  | fuel + 1, cur => do
    let (conditionExpr, c1) ← ParseConditionalExpr toks cur
    let t ← tokAt toks c1
    if isAssignOp t.type then
      let tokenType := t.type
      let (rhs, c2) ← ParseAssignExpr toks fuel c1
      pure (.mk conditionExpr tokenType (some rhs), c2)
    else
      .error .assertFail

/-- The loop of `Parser::ParseExpr`, lines 323-326. -/
def ParseExpr.loop (toks : List Token) :
    Nat → Nat → List AssignExpr → Except Err (List AssignExpr × Nat)
  | 0, _, _ => .error .outOfFuel
  | fuel + 1, cur, assignExps => do
    let b ← Peek toks cur .comma
    if b then
      let (_, c1) ← Consume toks cur .comma
      let (a, c2) ← ParseAssignExpr toks fuel c1
      ParseExpr.loop toks fuel c2 (assignExps ++ [a])
    else
      pure (assignExps, cur)

/-- The method `Parser::ParseExpr`, lines 320-328. -/
def ParseExpr (toks : List Token) (fuel : Nat) (cur : Nat) :
    Except Err (Expr × Nat) := do
  let (assign, c1) ← ParseAssignExpr toks fuel cur
  let (assignExps, c2) ← ParseExpr.loop toks fuel c1 []
  pure (⟨assign, assignExps⟩, c2)

/-! ## Statements -/

/-- The method `Parser::ParseDeclStmt`, lines 274-288. -/
def ParseDeclStmt (toks : List Token) (fuel : Nat) (cur : Nat) :
    Except Err (Declaration × Nat) := do
  let b ← IsTypeName toks cur
  assert b
  let (ty, c1) ← ParseType toks cur
  let _ ← Expect toks c1 .identifier
  let t ← tokAt toks c1
  let name ← getString t.value
  let p ← Peek toks c1 .equal
  if p then
    let (_, c2) ← Consume toks c1 .equal
    let (expr, c3) ← ParseExpr toks fuel c2
    let (m, c4) ← Match toks c3 .semi
    assert m
    pure (⟨ty, name, some expr⟩, c4)
  else
    let (m, c2) ← Match toks c1 .semi
    assert m
    pure (⟨ty, name, none⟩, c2)

/-- The method `Parser::ParseBreakStmt`, lines 290-293. -/
def ParseBreakStmt (toks : List Token) (cur : Nat) : Except Err (Stmt × Nat) := do
  let (m, c1) ← Match toks cur .kw_break
  assert m
  pure (.BreakStmt, c1)

/-- The method `Parser::ParseContinueStmt`, lines 295-298. -/
def ParseContinueStmt (toks : List Token) (cur : Nat) :
    Except Err (Stmt × Nat) := do
  let (m, c1) ← Match toks cur .kw_continue
  assert m
  pure (.ContinueStmt, c1)

/-- The method `Parser::ParseReturnStmt`, lines 300-309. -/
def ParseReturnStmt (toks : List Token) (fuel : Nat) (cur : Nat) :
    Except Err (Stmt × Nat) := do
  let (m, c1) ← Match toks cur .kw_return
  assert m
  let p ← Peek toks c1 .semi
  if p then
    pure (.ReturnStmt none, c1)
  else
    let (expr, c2) ← ParseExpr toks fuel c1
    let (m2, c3) ← Match toks c2 .semi
    assert m2
    pure (.ReturnStmt (some expr), c3)

/-- The method `Parser::ParseExprStmt`, lines 311-318. -/
def ParseExprStmt (toks : List Token) (fuel : Nat) (cur : Nat) :
    Except Err (Stmt × Nat) := do
  let p ← Peek toks cur .semi
  if p then
    pure (.ExprStmt none, cur)
  else
    let (expr, c1) ← ParseExpr toks fuel cur
    let (m, c2) ← Match toks c1 .semi
    assert m
    pure (.ExprStmt (some expr), c2)

/-- An optional expression of a `for` header: parsed unless the token
`stop` is under the cursor (lines 234-236, 239-241, 244-246, 260-262,
264-266). -/
def ParseExprUnless (toks : List Token) (fuel : Nat) (cur : Nat)
    (stop : TokenType) : Except Err (Option Expr × Nat) := do
  let p ← Peek toks cur stop
  if !p then
    let (e, c1) ← ParseExpr toks fuel cur
    pure (some e, c1)
  else
    pure (none, cur)

mutual

/-- The method `Parser::ParseStmt`, lines 151-185. -/
def ParseStmt (toks : List Token) : Nat → Nat → Except Err (Stmt × Nat)
  | 0, _ => .error .outOfFuel
  | fuel + 1, cur => do
    if (← Peek toks cur .kw_if) then
      ParseIfStmt toks fuel cur
    else if (← Peek toks cur .kw_do) then
      ParseDoWhileStmt toks fuel cur
    else if (← Peek toks cur .kw_while) then
      ParseWhileStmt toks fuel cur
    else if (← Peek toks cur .kw_for) then
      let start := cur
      let (_, c1) ← Consume toks cur .kw_for
      let (_, c2) ← Match toks c1 .l_paren
      if (← IsTypeName toks c2) then
        ParseForDeclStmt toks fuel start
      else
        ParseForStmt toks fuel start
    else if (← IsTypeName toks cur) then
      let (d, c1) ← ParseDeclStmt toks fuel cur
      pure (.Declaration d, c1)
    else if (← Peek toks cur .kw_break) then
      ParseBreakStmt toks cur
    else if (← Peek toks cur .kw_continue) then
      ParseContinueStmt toks cur
    else if (← Peek toks cur .kw_return) then
      ParseReturnStmt toks fuel cur
    else if (← Peek toks cur .l_brace) then
      let (b, c1) ← ParseBlockStmt toks fuel cur
      pure (.BlockStmt b.stmts, c1)
    else
      let _ ← Expect toks cur .identifier
      ParseExprStmt toks fuel cur
termination_by structural fuel => fuel

/-- The loop of `Parser::ParseBlockStmt`, lines 190-192. -/
def ParseBlockStmt.loop (toks : List Token) :
    Nat → Nat → List Stmt → Except Err (List Stmt × Nat)
  | 0, _, _ => .error .outOfFuel
  | fuel + 1, cur, stmts => do
    let t ← tokAt toks cur
    if t.type ≠ .r_brace then
      let (s, c1) ← ParseStmt toks fuel cur
      ParseBlockStmt.loop toks fuel c1 (stmts ++ [s])
    else
      pure (stmts, cur)
termination_by structural fuel => fuel

/-- The method `Parser::ParseBlockStmt`, lines 187-195. -/
def ParseBlockStmt (toks : List Token) : Nat → Nat → Except Err (BlockStmt × Nat)
  | 0, _ => .error .outOfFuel
  | fuel + 1, cur => do
    let (m, c1) ← Match toks cur .l_brace
    assert m
    let (stmts, c2) ← ParseBlockStmt.loop toks fuel c1 []
    let (_, c3) ← Consume toks c2 .r_brace
    pure (⟨stmts⟩, c3)
termination_by structural fuel => fuel

/-- The method `Parser::ParseIfStmt`, lines 197-208. -/
def ParseIfStmt (toks : List Token) : Nat → Nat → Except Err (Stmt × Nat)
  | 0, _ => .error .outOfFuel
  | fuel + 1, cur => do
    let (_, c1) ← Consume toks cur .kw_if
    let (m1, c2) ← Match toks c1 .l_paren
    assert m1
    let (expr, c3) ← ParseExpr toks fuel c2
    let (m2, c4) ← Match toks c3 .r_paren
    assert m2
    let (thenStmt, c5) ← ParseStmt toks fuel c4
    let (m3, c6) ← Match toks c5 .kw_else
    if m3 then
      let (elseStmt, c7) ← ParseStmt toks fuel c6
      pure (.IfStmt expr thenStmt (some elseStmt), c7)
    else
      pure (.IfStmt expr thenStmt none, c6)
termination_by structural fuel => fuel

/-- The method `Parser::ParseWhileStmt`, lines 210-217. -/
def ParseWhileStmt (toks : List Token) : Nat → Nat → Except Err (Stmt × Nat)
  | 0, _ => .error .outOfFuel
  | fuel + 1, cur => do
    let (_, c1) ← Consume toks cur .kw_while
    let (m1, c2) ← Match toks c1 .l_paren
    assert m1
    let (expr, c3) ← ParseExpr toks fuel c2
    let (m2, c4) ← Match toks c3 .r_paren
    assert m2
    let (stmt, c5) ← ParseStmt toks fuel c4
    pure (.WhileStmt expr stmt, c5)
termination_by structural fuel => fuel

/-- The method `Parser::ParseDoWhileStmt`, lines 219-228. -/
def ParseDoWhileStmt (toks : List Token) : Nat → Nat → Except Err (Stmt × Nat)
  | 0, _ => .error .outOfFuel
  | fuel + 1, cur => do
    let (_, c1) ← Consume toks cur .kw_do
    let (stmt, c2) ← ParseStmt toks fuel c1
    let (m1, c3) ← Match toks c2 .kw_while
    assert m1
    let (m2, c4) ← Match toks c3 .l_paren
    assert m2
    let (expr, c5) ← ParseExpr toks fuel c4
    let (m3, c6) ← Match toks c5 .r_paren
    assert m3
    let (m4, c7) ← Match toks c6 .semi
    assert m4
    pure (.DoWhileStmt stmt expr, c7)
termination_by structural fuel => fuel

/-- The method `Parser::ParseForStmt`, lines 230-252. -/
def ParseForStmt (toks : List Token) : Nat → Nat → Except Err (Stmt × Nat)
  | 0, _ => .error .outOfFuel
  | fuel + 1, cur => do
    let (_, c1) ← Consume toks cur .kw_for
    let (m1, c2) ← Match toks c1 .l_paren
    assert m1
    let (initExpr, c3) ← ParseExprUnless toks fuel c2 .semi
    let (m2, c4) ← Match toks c3 .semi
    assert m2
    let (controlExpr, c5) ← ParseExprUnless toks fuel c4 .semi
    let (m3, c6) ← Match toks c5 .semi
    assert m3
    let (postExpr, c7) ← ParseExprUnless toks fuel c6 .r_paren
    let (m4, c8) ← Match toks c7 .r_paren
    assert m4
    let (stmt, c9) ← ParseStmt toks fuel c8
    pure (.ForStmt initExpr controlExpr postExpr stmt, c9)
termination_by structural fuel => fuel

/-- The method `Parser::ParseForDeclStmt`, lines 254-272. -/
def ParseForDeclStmt (toks : List Token) : Nat → Nat → Except Err (Stmt × Nat)
  | 0, _ => .error .outOfFuel
  | fuel + 1, cur => do
    let (_, c1) ← Consume toks cur .kw_for
    let (m1, c2) ← Match toks c1 .l_paren
    assert m1
    let b ← IsTypeName toks c2
    assert b
    let (initDecl, c3) ← ParseDeclStmt toks fuel c2
    let (controlExpr, c4) ← ParseExprUnless toks fuel c3 .semi
    let (m2, c5) ← Match toks c4 .semi
    assert m2
    let (postExpr, c6) ← ParseExprUnless toks fuel c5 .r_paren
    let (m3, c7) ← Match toks c6 .r_paren
    assert m3
    let (stmt, c8) ← ParseStmt toks fuel c7
    pure (.ForDeclarationStmt initDecl controlExpr postExpr stmt, c8)
termination_by structural fuel => fuel
end

/-! ## Top level -/

/-- The parameter loop of `Parser::ParseFunction`, lines 62-73. -/
def ParseFunction.params (toks : List Token) :
    Nat → Nat → List (Ty × String) → Except Err (List (Ty × String) × Nat)
  | 0, _, _ => .error .outOfFuel
  | n + 1, cur, params => do
    let t ← tokAt toks cur
    if t.type ≠ .r_paren then
      let (ty, c1) ← ParseType toks cur
      let (m, c2) ← Match toks c1 .comma
      if m then
        ParseFunction.params toks n c2 (params ++ [(ty, "")])
      else
        let t2 ← tokAt toks c2
        assert (decide (t2.type = .identifier))
        let name ← getString t2.value
        let (_, c3) ← Consume toks c2 .identifier
        ParseFunction.params toks n c3 (params ++ [(ty, name)])
    else
      pure (params, cur)

/-- The first part of `Parser::ParseFunction`, lines 55-74: return type, name
and parameter list up to and including the closing parenthesis. -/
def ParseFunction.header (toks : List Token) (cur : Nat) :
    Except Err ((Ty × String × List (Ty × String)) × Nat) := do
  let b ← IsTypeName toks cur
  assert b
  let (retType, c1) ← ParseType toks cur
  let e ← Expect toks c1 .identifier
  assert e
  let t ← tokAt toks c1
  let funcName ← getString t.value
  let (_, c2) ← Consume toks c1 .identifier
  let (m, c3) ← Match toks c2 .l_paren
  assert m
  let (params, c4) ← ParseFunction.params toks (toks.length - c3 + 1) c3 []
  let (_, c5) ← Consume toks c4 .r_paren
  pure ((retType, funcName, params), c5)

/-- The method `Parser::ParseFunction`, lines 54-83: the header, then lines
75-82. -/
def ParseFunction (toks : List Token) (fuel : Nat) (cur : Nat) :
    Except Err (Function × Nat) := do
  let ((retType, funcName, params), c5) ← ParseFunction.header toks cur
  let t ← tokAt toks c5
  if t.type = .semi then
    let (_, c6) ← Consume toks c5 .semi
    pure (⟨retType, funcName, params, none⟩, c6)
  else
    let (body, c6) ← ParseBlockStmt toks fuel c5
    pure (⟨retType, funcName, params, some body⟩, c6)

/-- The method `Parser::ParseGlobalDecl`, lines 84-99. -/
def ParseGlobalDecl (toks : List Token) (cur : Nat) :
    Except Err (GlobalDecl × Nat) := do
  let b ← IsTypeName toks cur
  assert b
  let (ty, c1) ← ParseType toks cur
  let e ← Expect toks c1 .identifier
  assert e
  let t ← tokAt toks c1
  let varName ← getString t.value
  let (_, c2) ← Consume toks c1 .identifier
  let (m, c3) ← Match toks c2 .equal
  if m then
    let globalDecl : GlobalDecl := ⟨ty, varName, none⟩
    let (m2, c4) ← Match toks c3 .semi
    assert m2
    pure (globalDecl, c4)
  else
    let (init, c4) ← ParseConstantExpr toks c3
    let globalDecl : GlobalDecl := ⟨ty, varName, some init⟩
    let (m2, c5) ← Match toks c4 .semi
    assert m2
    pure (globalDecl, c5)

/-- The loop of `Parser::IsFunction`, lines 362-364. -/
def IsFunction.loop (toks : List Token) : Nat → Nat → Except Err Nat
  | 0, _ => .error .outOfFuel
  | n + 1, cur => do
    let b ← IsTypeName toks cur
    if b then IsFunction.loop toks n (cur + 1) else pure cur

/-- The method `Parser::IsFunction`, lines 358-373. -/
def IsFunction (toks : List Token) (cur : Nat) : Except Err (Bool × Nat) := do
  let start := cur
  let b ← IsTypeName toks cur
  assert b
  let c1 ← IsFunction.loop toks (toks.length - cur + 1) cur
  let (m, c2) ← Match toks c1 .identifier
  assert m
  let (m2, _) ← Match toks c2 .l_paren
  let isFunc := if m2 then true else false
  pure (isFunc, start)

/-- The loop of `Parser::Parse`, lines 45-51. -/
def Parse.loop (toks : List Token) :
    Nat → Nat → List Function → List GlobalDecl → Except Err (Program × Nat)
  | 0, _, _, _ => .error .outOfFuel
  | fuel + 1, cur, funcs, decls =>
    if cur ≠ toks.length then do
      let (isF, c1) ← IsFunction toks cur
      if isF then
        let (f, c2) ← ParseFunction toks fuel c1
        Parse.loop toks fuel c2 (funcs ++ [f]) decls
      else
        let (d, c2) ← ParseGlobalDecl toks c1
        Parse.loop toks fuel c2 funcs (decls ++ [d])
    else
      pure (⟨funcs, decls⟩, cur)

/-- The method `Parser::Parse`, lines 42-53, on a parser whose cursor is at
the first token. -/
def Parse (toks : List Token) (fuel : Nat) : Except Err (Program × Nat) :=
  Parse.loop toks fuel 0 [] []

/-! ## Declarator resolver (`Utilities.cc`) -/

mutual

/-- Modelled from the spec: `Syntax::Declarator`, which owns one direct
declarator.  `P` is the type of parameter-type lists and `E` the type of size
expressions; neither is inspected by the resolver. -/
inductive Declarator (P E : Type)
  | mk (directDeclarator : DirectDeclarator P E)

/-- Modelled from the spec: the variant `Syntax::DirectDeclarator` with its
four alternatives `Ident`, `Parenthesized`, `FunctionOf` and `Sized`, under the
names the source uses for them. -/
inductive DirectDeclarator (P E : Type)
  | DirectDeclaratorIdent (ident : String)
  | DirectDeclaratorParent (declarator : Declarator P E)
  | DirectDeclaratorParentParamTypeList
      (directDeclarator : DirectDeclarator P E) (paramTypeList : P)
  | DirectDeclaratorAssignExpr
      (directDeclarator : DirectDeclarator P E) (assignExpr : E)

end

/-- The accessor `Declarator::getDirectDeclarator`. -/
def Declarator.getDirectDeclarator {P E : Type} :
    Declarator P E → DirectDeclarator P E
  | .mk dd => dd

/-- A `DirectDeclaratorParentParamTypeList` node, as the pointer returned by
`getFuncDeclarator` designates it: its nested declarator and its parameter
list. -/
structure ParamTypeListNode (P E : Type) where
  directDeclarator : DirectDeclarator P E
  paramTypeList : P

/-- The visitor of `getDeclaratorName`, `Utilities.cc` lines 29-46: one case
per lambda of the overload set, `self` being the recursive call. -/
def getDeclaratorName.visitor {P E : Type} : DirectDeclarator P E → String
  | .DirectDeclaratorIdent name => name
  | .DirectDeclaratorParent (.mk dd) => getDeclaratorName.visitor dd
  | .DirectDeclaratorParentParamTypeList dd _ => getDeclaratorName.visitor dd
  | .DirectDeclaratorAssignExpr dd _ => getDeclaratorName.visitor dd

/-- The function `getDeclaratorName`, lines 28-48. -/
def getDeclaratorName {P E : Type} (declarator : Declarator P E) : String :=
  getDeclaratorName.visitor declarator.getDirectDeclarator

/-- The visitor of `getFuncDeclarator`, lines 53-71.  The captured variable
`paramTypeList_` is threaded through: the third lambda assigns it, the others
leave it alone. -/
def getFuncDeclarator.visitor {P E : Type} :
    DirectDeclarator P E → Option (ParamTypeListNode P E) →
      String × Option (ParamTypeListNode P E)
  | .DirectDeclaratorIdent name, paramTypeList_ => (name, paramTypeList_)
  | .DirectDeclaratorParent (.mk dd), paramTypeList_ =>
    getFuncDeclarator.visitor dd paramTypeList_
  | .DirectDeclaratorParentParamTypeList dd p, _ =>
    getFuncDeclarator.visitor dd (some ⟨dd, p⟩)
  | .DirectDeclaratorAssignExpr dd _, paramTypeList_ =>
    getFuncDeclarator.visitor dd paramTypeList_

/-- The function `getFuncDeclarator`, lines 50-74: `paramTypeList_` starts as
the null pointer and is returned after the visit. -/
def getFuncDeclarator {P E : Type} (declarator : Declarator P E) :
    Option (ParamTypeListNode P E) :=
  (getFuncDeclarator.visitor declarator.getDirectDeclarator none).2

/-- The `DirectDeclaratorParentParamTypeList` nodes on the path from a direct
declarator to its identifier, outermost first. -/
def funcNodesOnPath {P E : Type} :
    DirectDeclarator P E → List (ParamTypeListNode P E)
  | .DirectDeclaratorIdent _ => []
  | .DirectDeclaratorParent (.mk dd) => funcNodesOnPath dd
  | .DirectDeclaratorParentParamTypeList dd p => ⟨dd, p⟩ :: funcNodesOnPath dd
  | .DirectDeclaratorAssignExpr dd _ => funcNodesOnPath dd

/-- The names of all `DirectDeclaratorIdent` leaves of a direct declarator. -/
def identLeaves {P E : Type} : DirectDeclarator P E → List String
  | .DirectDeclaratorIdent name => [name]
  | .DirectDeclaratorParent (.mk dd) => identLeaves dd
  | .DirectDeclaratorParentParamTypeList dd _ => identLeaves dd
  | .DirectDeclaratorAssignExpr dd _ => identLeaves dd

/-- One layer of wrapping around a direct declarator. -/
inductive Wrapper (P E : Type)
  | parenthesized
  | functionOf (paramTypeList : P)
  | sized (assignExpr : E)

/-- A wrapper applied to a direct declarator. -/
def Wrapper.apply {P E : Type} : Wrapper P E → DirectDeclarator P E →
    DirectDeclarator P E
  | .parenthesized, dd => .DirectDeclaratorParent (.mk dd)
  | .functionOf p, dd => .DirectDeclaratorParentParamTypeList dd p
  | .sized e, dd => .DirectDeclaratorAssignExpr dd e

/-- The declarator built from an identifier by a sequence of wrappers, the
head of the sequence being the outermost layer. -/
def wrapIdent {P E : Type} (ws : List (Wrapper P E)) (name : String) :
    Declarator P E :=
  .mk (ws.foldr Wrapper.apply (.DirectDeclaratorIdent name))

/-! ## Scope environment (`CodeGenContext.h`) -/

/-- The pair `LLVMValueSignPair`: a pointer to an `llvm::Value` (`none` is the
null pointer, `some a` the object at address `a`) and the signedness flag. -/
abbrev LLVMValueSignPair := Option Nat × Bool

/-- A value-initialised `LLVMValueSignPair`: null pointer, `false`. -/
def LLVMValueSignPair.dflt : LLVMValueSignPair := (none, false)

/-- A `std::unordered_map<std::string, LLVMValueSignPair>` as an association
list with at most one entry per key. -/
abbrev Table := List (String × LLVMValueSignPair)

/-- The entry stored under a key, `find`. -/
def Table.find (m : Table) (name : String) : Option LLVMValueSignPair :=
  m.lookup name

/-- The read `m[name]`: the stored value, or a value-initialised entry that is
inserted when the key is absent. -/
def Table.subscript (m : Table) (name : String) : LLVMValueSignPair × Table :=
  match m.find name with
  | some v => (v, m)
  | none => (LLVMValueSignPair.dflt, (name, LLVMValueSignPair.dflt) :: m)

/-- The write `m[name] = v`: inserts or overwrites. -/
def Table.assign (m : Table) (name : String) (v : LLVMValueSignPair) : Table :=
  (name, v) :: m.filter (fun e => e.1 != name)

/-- The scope state of `CodeGenContext`: the vector `mLocalScope` (front
first, so the innermost table is the last element), the map `mGlobalScope`,
and the two jump-target stacks, which the scope methods leave alone. -/
structure CodeGenContext where
  mBreaks : List Nat
  mContinues : List Nat
  mLocalScope : List Table
  mGlobalScope : Table
  deriving DecidableEq, Repr

/-- The method `AddLocal`, lines 37-39.  `back()` of an empty vector has no
result. -/
def AddLocal (name : String) (valueSignPair : LLVMValueSignPair)
    (ctx : CodeGenContext) : Option CodeGenContext :=
  match ctx.mLocalScope.getLast? with
  | none => none
  | some back =>
    some ⟨ctx.mBreaks, ctx.mContinues,
      ctx.mLocalScope.dropLast ++ [back.assign name valueSignPair],
      ctx.mGlobalScope⟩

/-- The method `AddGlobal`, lines 41-43. -/
def AddGlobal (name : String) (valueSignPair : LLVMValueSignPair)
    (ctx : CodeGenContext) : CodeGenContext :=
  ⟨ctx.mBreaks, ctx.mContinues, ctx.mLocalScope,
    ctx.mGlobalScope.assign name valueSignPair⟩

/-- The loop of `FindVar`, lines 46-50, over the tables in the order of the
reverse iterator (innermost first).  Returns the value and the tables after
the read `(*mp)[name]`, or `none` when the loop ends without returning. -/
def FindVar.loop (name : String) :
    List Table → Option (LLVMValueSignPair × List Table)
  | [] => none
  | mp :: rest =>
    if (mp.find name).isSome then
      some ((mp.subscript name).1, (mp.subscript name).2 :: rest)
    else
      match FindVar.loop name rest with
      | some (v, rest1) => some (v, mp :: rest1)
      | none => none

/-- The method `FindVar`, lines 45-52. -/
def FindVar (name : String) (ctx : CodeGenContext) :
    LLVMValueSignPair × CodeGenContext :=
  match FindVar.loop name ctx.mLocalScope.reverse with
  | some (v, tables) =>
    (v, ⟨ctx.mBreaks, ctx.mContinues, tables.reverse, ctx.mGlobalScope⟩)
  | none =>
    ((ctx.mGlobalScope.subscript name).1,
      ⟨ctx.mBreaks, ctx.mContinues, ctx.mLocalScope,
        (ctx.mGlobalScope.subscript name).2⟩)

/-- The method `PushScope`, lines 54-56. -/
def PushScope (ctx : CodeGenContext) : CodeGenContext :=
  ⟨ctx.mBreaks, ctx.mContinues, ctx.mLocalScope ++ [[]], ctx.mGlobalScope⟩

/-- The method `PopScope`, lines 58-60.  `pop_back()` of an empty vector has
no result. -/
def PopScope (ctx : CodeGenContext) : Option CodeGenContext :=
  if ctx.mLocalScope.isEmpty then none
  else some ⟨ctx.mBreaks, ctx.mContinues, ctx.mLocalScope.dropLast,
    ctx.mGlobalScope⟩

/-- The method `ClearScope`, lines 62-65. -/
def ClearScope (ctx : CodeGenContext) : CodeGenContext :=
  PushScope ⟨ctx.mBreaks, ctx.mContinues, [], ctx.mGlobalScope⟩

/-! ## Token builders used in the examples -/

/-- A token without a literal value. -/
def tk (type : TokenType) : Token := ⟨type, .monostate⟩

/-- An identifier token. -/
def ident (name : String) : Token := ⟨.identifier, .string name⟩

/-! ## Example inputs -/

/-- A function declarator nested in a function declarator: the tree
`FunctionOf(FunctionOf(Ident "f", 1), 2)`. -/
def nestedFunctionOf : Declarator Nat Nat :=
  .mk (.DirectDeclaratorParentParamTypeList
    (.DirectDeclaratorParentParamTypeList (.DirectDeclaratorIdent "f") 1) 2)

/-- The tokens of `int x = ; long foo ( ) ;`. -/
def toksDeclThenFunction : List Token :=
  [tk .kw_int, ident "x", tk .equal, tk .semi,
   tk .kw_long, ident "foo", tk .l_paren, tk .r_paren, tk .semi]

/-- The tokens of `int foo(int a, int b);`. -/
def toksFooAB : List Token :=
  [tk .kw_int, ident "foo", tk .l_paren, tk .kw_int, ident "a", tk .comma,
   tk .kw_int, ident "b", tk .r_paren, tk .semi]

/-- The tokens of `int foo(int a);`. -/
def toksFooA : List Token :=
  [tk .kw_int, ident "foo", tk .l_paren, tk .kw_int, ident "a", tk .r_paren,
   tk .semi]

/-- The tokens of `int foo();`. -/
def toksFooDecl : List Token :=
  [tk .kw_int, ident "foo", tk .l_paren, tk .r_paren, tk .semi]

/-- The tokens of `int foo() { }`. -/
def toksFooEmptyBody : List Token :=
  [tk .kw_int, ident "foo", tk .l_paren, tk .r_paren, tk .l_brace, tk .r_brace]

/-- The tokens of `int foo(int);`. -/
def toksFooInt : List Token :=
  [tk .kw_int, ident "foo", tk .l_paren, tk .kw_int, tk .r_paren, tk .semi]

/-- The tokens of `int foo(int, int b);`. -/
def toksFooIntIntB : List Token :=
  [tk .kw_int, ident "foo", tk .l_paren, tk .kw_int, tk .comma, tk .kw_int,
   ident "b", tk .r_paren, tk .semi]

/-- The tokens of `int **p`. -/
def toksIntPtrPtrP : List Token :=
  [tk .kw_int, tk .star, tk .star, ident "p"]

/-- The type `baseType` under `n` layers of `PointerType`. -/
def pointerNest : Nat → Ty → Ty
  | 0, baseType => baseType
  | n + 1, baseType => .PointerType (pointerNest n baseType)

/-- A finite sequence of `AddLocal` calls, performed in order. -/
def AddLocalSeq : List (String × LLVMValueSignPair) → CodeGenContext →
    Option CodeGenContext
  | [], ctx => some ctx
  | (name, valueSignPair) :: rest, ctx =>
    match AddLocal name valueSignPair ctx with
    | some ctx1 => AddLocalSeq rest ctx1
    | none => none

/-- The tokens of `x = 1`: an identifier, `=`, a numeric constant. -/
def toksAssign : List Token :=
  [ident "x", tk .equal, ⟨.numeric_constant, .int32 1⟩]

/-- The tokens of `int x ;`. -/
def toksLocalDecl : List Token :=
  [tk .kw_int, ident "x", tk .semi]

/-- The tokens `'a' "s" 7 2.5 ;` as the lexer delivers them: a char constant
carrying 97, a string literal, an integer and a floating numeric constant (the
latter by its bit pattern), and a `;`. -/
def toksLiterals : List Token :=
  [⟨.char_constant, .int32 97⟩, ⟨.string_literal, .string "s"⟩,
   ⟨.numeric_constant, .int32 7⟩, ⟨.numeric_constant, .double 4612811918334230528⟩,
   tk .semi]

/-- The tokens at `cur`, ..., `cur + m - 1` are type specifiers. -/
def typeRunAt (toks : List Token) (cur m : Nat) : Prop :=
  ∀ i, i < m → ∃ t, toks[cur + i]? = some t ∧ isTypeKw t.type = true

/-- The tokens at `cur`, ..., `cur + n - 1` are `*`. -/
def starRunAt (toks : List Token) (cur n : Nat) : Prop :=
  ∀ j, j < n → ∃ t, toks[cur + j]? = some t ∧ t.type = .star

/-- The token at `cur` exists and has the given kind. -/
def kindAt (toks : List Token) (cur : Nat) (type : TokenType) : Prop :=
  ∃ t, toks[cur]? = some t ∧ t.type = type

/-- The top-level constructs read from cursor `cur` to the end of the token
stream, in source order: a construct on which `IsFunction` answers true is
the `Function` that `ParseFunction` returns there, one on which it answers
false is the `GlobalDecl` that `ParseGlobalDecl` returns there, and the next
construct starts where that parse left the cursor. -/
def TopLevelRun (toks : List Token) : Nat → List (Function ⊕ GlobalDecl) → Prop
  | cur, [] => cur = toks.length
  | cur, .inl f :: rest =>
    cur ≠ toks.length ∧ IsFunction toks cur = .ok (true, cur) ∧
      ∃ fuel c2, ParseFunction toks fuel cur = .ok (f, c2) ∧ TopLevelRun toks c2 rest
  | cur, .inr d :: rest =>
    cur ≠ toks.length ∧ IsFunction toks cur = .ok (false, cur) ∧
      ∃ c2, ParseGlobalDecl toks cur = .ok (d, c2) ∧ TopLevelRun toks c2 rest

/-- The tokens of `int foo ( int a ;`. -/
def toksFooMissingParen : List Token :=
  [tk .kw_int, ident "foo", tk .l_paren, tk .kw_int, ident "a", tk .semi]

/-- The parameter loop of `ParseFunction`, started at cursor `c`, parses the
parameters `params` one after the other and is then at cursor `c1`: each
parameter starts at a token other than `)`, has the type that `ParseType`
returns there, and is followed either by a `,` (the name is then empty) or by
the identifier that names it. -/
def ParamsParsed (toks : List Token) : Nat → List (Ty × String) → Nat → Prop
  | c, [], c1 => c = c1
  | c, (ty, name) :: rest, c1 =>
    (∃ t, toks[c]? = some t ∧ t.type ≠ .r_paren) ∧
    ∃ c2, ParseType toks c = .ok (ty, c2) ∧
      ((kindAt toks c2 .comma ∧ name = "" ∧ ParamsParsed toks (c2 + 1) rest c1) ∨
       (toks[c2]? = some ⟨.identifier, .string name⟩ ∧
         ParamsParsed toks (c2 + 1) rest c1))

mutual

/-- A statement that is a `BlockStmt`, a `BreakStmt`, a `ContinueStmt` or a
`ForStmt` whose init, cond and post are absent, and whose sub-statements are
all of that kind too. -/
def Stmt.isPlain : Stmt → Bool
  | .BlockStmt stmts => Stmt.allPlain stmts
  | .ForStmt none none none body => Stmt.isPlain body
  | .BreakStmt => true
  | .ContinueStmt => true
  | _ => false

/-- Every statement of the list is plain. -/
def Stmt.allPlain : List Stmt → Bool
  | [] => true
  | s :: rest => Stmt.isPlain s && Stmt.allPlain rest

end

/-- The tokens of `int foo ( ) { break { continue } for ( ; ; ) break }`. -/
def toksFooPlainBody : List Token :=
  [tk .kw_int, ident "foo", tk .l_paren, tk .r_paren, tk .l_brace, tk .kw_break,
   tk .l_brace, tk .kw_continue, tk .r_brace, tk .kw_for, tk .l_paren, tk .semi,
   tk .semi, tk .r_paren, tk .kw_break, tk .r_brace]

/-- The keyword that denotes each type kind: `auto` for `Auto`, `char` for
`Char`, `short` for `Short`, `int` for `Int`, `long` for `Long`, `float` for
`Float`, `double` for `Double`, `signed` for `Signed` and `unsigned` for
`UnSigned`. -/
def TypeKind.keyword : TypeKind → TokenType
  | .Auto => .kw_auto
  | .Char => .kw_char
  | .Short => .kw_short
  | .Int => .kw_int
  | .Long => .kw_long
  | .Float => .kw_float
  | .Double => .kw_double
  | .Signed => .kw_signed
  | .UnSigned => .kw_unsigned

/-- The tokens of `auto char short int long float double signed unsigned * q`,
every type specifier once. -/
def toksAllSpecifiersPtr : List Token :=
  [tk .kw_auto, tk .kw_char, tk .kw_short, tk .kw_int, tk .kw_long, tk .kw_float,
   tk .kw_double, tk .kw_signed, tk .kw_unsigned, tk .star, ident "q"]

/-! # Properties -/

/-! ## Declarator resolver: proofs -/

section Resolver
variable {P E : Type}

theorem getDeclaratorName.visitor_apply (w : Wrapper P E) (dd : DirectDeclarator P E) :
    getDeclaratorName.visitor (w.apply dd) = getDeclaratorName.visitor dd := by
  cases w <;> rfl

theorem getDeclaratorName.visitor_foldr (ws : List (Wrapper P E)) (name : String) :
    getDeclaratorName.visitor (ws.foldr Wrapper.apply (.DirectDeclaratorIdent name)) = name := by
  induction ws with
  | nil => rfl
  | cons w ws ih => rw [List.foldr_cons, getDeclaratorName.visitor_apply, ih]

theorem DirectDeclarator.exists_wrappers :
    ∀ dd : DirectDeclarator P E, ∃ (ws : List (Wrapper P E)) (name : String),
      dd = ws.foldr Wrapper.apply (.DirectDeclaratorIdent name)
  | .DirectDeclaratorIdent name => ⟨[], name, rfl⟩
  | .DirectDeclaratorParent (.mk dd) => by
    obtain ⟨ws, name, h⟩ := DirectDeclarator.exists_wrappers dd
    exact ⟨.parenthesized :: ws, name, by rw [List.foldr_cons, ← h]; rfl⟩
  | .DirectDeclaratorParentParamTypeList dd p => by
    obtain ⟨ws, name, h⟩ := DirectDeclarator.exists_wrappers dd
    exact ⟨.functionOf p :: ws, name, by rw [List.foldr_cons, ← h]; rfl⟩
  | .DirectDeclaratorAssignExpr dd e => by
    obtain ⟨ws, name, h⟩ := DirectDeclarator.exists_wrappers dd
    exact ⟨.sized e :: ws, name, by rw [List.foldr_cons, ← h]; rfl⟩

theorem identLeaves_eq_visitor :
    ∀ dd : DirectDeclarator P E, identLeaves dd = [getDeclaratorName.visitor dd]
  | .DirectDeclaratorIdent _ => rfl
  | .DirectDeclaratorParent (.mk dd) => by
    rw [identLeaves, getDeclaratorName.visitor, identLeaves_eq_visitor dd]
  | .DirectDeclaratorParentParamTypeList dd _ => by
    rw [identLeaves, getDeclaratorName.visitor, identLeaves_eq_visitor dd]
  | .DirectDeclaratorAssignExpr dd _ => by
    rw [identLeaves, getDeclaratorName.visitor, identLeaves_eq_visitor dd]

theorem getFuncDeclarator.visitor_snd :
    ∀ (dd : DirectDeclarator P E) (acc : Option (ParamTypeListNode P E)),
      (getFuncDeclarator.visitor dd acc).2 = (funcNodesOnPath dd).getLast?.or acc
  | .DirectDeclaratorIdent _, acc => by
    simp [getFuncDeclarator.visitor, funcNodesOnPath]
  | .DirectDeclaratorParent (.mk dd), acc => by
    rw [getFuncDeclarator.visitor, funcNodesOnPath, getFuncDeclarator.visitor_snd dd]
  | .DirectDeclaratorParentParamTypeList dd p, acc => by
    rw [getFuncDeclarator.visitor, funcNodesOnPath, getFuncDeclarator.visitor_snd dd,
      List.getLast?_cons]
    cases (funcNodesOnPath dd).getLast? <;> simp
  | .DirectDeclaratorAssignExpr dd _, acc => by
    rw [getFuncDeclarator.visitor, funcNodesOnPath, getFuncDeclarator.visitor_snd dd]

/-- C8: on every finite declarator tree `getDeclaratorName` returns the name
of the tree's only `Ident` leaf.  Every tree is an identifier under a finite
sequence of wrappers, in any order and of any length; on such a tree the
function returns that identifier, and the list of all identifier leaves of a
tree is the one-element list holding the returned name. -/
theorem getDeclaratorName_returns_ident_leaf :
    (∀ (ws : List (Wrapper P E)) (name : String),
        getDeclaratorName (wrapIdent ws name) = name) ∧
    (∀ d : Declarator P E, ∃ (ws : List (Wrapper P E)) (name : String),
        d = wrapIdent ws name) ∧
    (∀ d : Declarator P E,
        identLeaves d.getDirectDeclarator = [getDeclaratorName d]) := by
  refine ⟨?_, ?_, ?_⟩
  · intro ws name
    exact getDeclaratorName.visitor_foldr ws name
  · rintro ⟨dd⟩
    obtain ⟨ws, name, h⟩ := DirectDeclarator.exists_wrappers dd
    exact ⟨ws, name, by rw [h]; rfl⟩
  · rintro ⟨dd⟩
    exact identLeaves_eq_visitor dd

/-- C2, as stated, fails: on a tree with two nested `FunctionOf` nodes the
outermost node on the path is the one with parameter list `2`, and
`getFuncDeclarator` returns the one with parameter list `1`. -/
theorem getFuncDeclarator_not_outermost :
    (funcNodesOnPath nestedFunctionOf.getDirectDeclarator).head? =
      some ⟨.DirectDeclaratorParentParamTypeList (.DirectDeclaratorIdent "f") 1, 2⟩ ∧
    getFuncDeclarator nestedFunctionOf = some ⟨.DirectDeclaratorIdent "f", 1⟩ ∧
    getFuncDeclarator nestedFunctionOf ≠
      (funcNodesOnPath nestedFunctionOf.getDirectDeclarator).head? := by
  refine ⟨rfl, rfl, ?_⟩
  intro h
  have h2 : (some ⟨.DirectDeclaratorIdent "f", 1⟩ : Option (ParamTypeListNode Nat Nat)) =
      some ⟨.DirectDeclaratorParentParamTypeList (.DirectDeclaratorIdent "f") 1, 2⟩ := h
  exact absurd (congrArg ParamTypeListNode.paramTypeList (Option.some.inj h2)) (by decide)

/-- C2, amended: on every finite declarator tree `getFuncDeclarator` returns
the innermost `FunctionOf` node on the path from the root to the `Ident` leaf,
that is the last one met by the traversal, and returns none exactly when no
`FunctionOf` node lies on that path. -/
theorem getFuncDeclarator_innermost (d : Declarator P E) :
    getFuncDeclarator d = (funcNodesOnPath d.getDirectDeclarator).getLast? ∧
    (getFuncDeclarator d = none ↔ funcNodesOnPath d.getDirectDeclarator = []) := by
  have h : getFuncDeclarator d = (funcNodesOnPath d.getDirectDeclarator).getLast? := by
    unfold getFuncDeclarator
    rw [getFuncDeclarator.visitor_snd]
    simp
  exact ⟨h, by rw [h]; exact List.getLast?_eq_none_iff⟩

end Resolver

/-! ## Scope environment: proofs -/

theorem Table.subscript_of_find {m : Table} {name : String} {b : LLVMValueSignPair}
    (h : m.find name = some b) : m.subscript name = (b, m) := by
  simp [Table.subscript, h]

theorem Table.find_assign_self (m : Table) (name : String) (v : LLVMValueSignPair) :
    (m.assign name v).find name = some v := by
  simp [Table.assign, Table.find, List.lookup_cons]

theorem FindVar.loop_found (name : String) (b : LLVMValueSignPair) (t : Table)
    (post : List Table) (ht : t.find name = some b) :
    ∀ pre : List Table, (∀ u ∈ pre, u.find name = none) →
      FindVar.loop name (pre ++ t :: post) = some (b, pre ++ t :: post)
  | [], _ => by
    simp [FindVar.loop, ht, Table.subscript_of_find ht]
  | u :: pre, h => by
    have hu : u.find name = none := h u (by simp)
    have ih := FindVar.loop_found name b t post ht pre
      (fun w hw => h w (by simp [hw]))
    simp [FindVar.loop, hu, ih]

theorem FindVar.loop_none (name : String) :
    ∀ l : List Table, (∀ u ∈ l, u.find name = none) → FindVar.loop name l = none
  | [], _ => rfl
  | u :: l, h => by
    have hu : u.find name = none := h u (by simp)
    have ih := FindVar.loop_none name l (fun w hw => h w (by simp [hw]))
    simp [FindVar.loop, hu, ih]

theorem FindVar_of_innermost (ctx : CodeGenContext) (name : String)
    (outer inner : List Table) (t : Table) (b : LLVMValueSignPair)
    (hs : ctx.mLocalScope = outer ++ t :: inner)
    (hin : ∀ u ∈ inner, u.find name = none) (ht : t.find name = some b) :
    FindVar name ctx = (b, ctx) := by
  have hl : FindVar.loop name ctx.mLocalScope.reverse =
      some (b, inner.reverse ++ t :: outer.reverse) := by
    rw [hs, List.reverse_append, List.reverse_cons, List.append_assoc]
    exact FindVar.loop_found name b t outer.reverse ht inner.reverse
      (fun u hu => hin u (List.mem_reverse.mp hu))
  unfold FindVar
  rw [hl]
  cases ctx
  simp at hs
  simp [hs]

/-- C3: when a name is bound in a local table `t` and in none of the tables
pushed after `t`, `FindVar` returns the binding stored in `t`, whatever the
outer tables and the global table hold, and leaves the environment as it was.
Consequently, from any environment, after `PushScope(); AddLocal(x, A);
PushScope(); AddLocal(x, B)` the lookup of `x` gives `B`, and after a
following `PopScope()` it gives `A`. -/
theorem FindVar_innermost_binding_wins (ctx : CodeGenContext) (name : String)
    (outer inner : List Table) (t : Table) (b : LLVMValueSignPair)
    (hs : ctx.mLocalScope = outer ++ t :: inner)
    (hin : ∀ u ∈ inner, u.find name = none) (ht : t.find name = some b) :
    FindVar name ctx = (b, ctx) ∧
    ∀ (env : CodeGenContext) (x : String) (A B : LLVMValueSignPair),
      ∃ e2 e4 : CodeGenContext,
        AddLocal x A (PushScope env) = some e2 ∧
        AddLocal x B (PushScope e2) = some e4 ∧
        FindVar x e4 = (B, e4) ∧
        PopScope e4 = some e2 ∧
        FindVar x e2 = (A, e2) := by
  refine ⟨FindVar_of_innermost ctx name outer inner t b hs hin ht, ?_⟩
  intro env x A B
  refine ⟨⟨env.mBreaks, env.mContinues, env.mLocalScope ++ [Table.assign [] x A],
      env.mGlobalScope⟩,
    ⟨env.mBreaks, env.mContinues,
      (env.mLocalScope ++ [Table.assign [] x A]) ++ [Table.assign [] x B],
      env.mGlobalScope⟩, ?_, ?_, ?_, ?_, ?_⟩
  · simp [AddLocal, PushScope]
  · simp [AddLocal, PushScope]
  · exact FindVar_of_innermost _ x (env.mLocalScope ++ [Table.assign [] x A]) []
      (Table.assign [] x B) B (by simp) (by simp) (Table.find_assign_self _ _ _)
  · simp [PopScope]
  · exact FindVar_of_innermost _ x env.mLocalScope [] (Table.assign [] x A) A
      (by simp) (by simp) (Table.find_assign_self _ _ _)

/-- C3 at a concrete environment: `x` is bound in the global table, in the
outer and in the inner local table; the inner binding is returned. -/
theorem FindVar_innermost_binding_wins_witness :
    FindVar "x" ⟨[], [], [[("x", (some 1, false))], [("y", (some 2, true)), ("x", (some 3, true))], []],
        [("x", (some 4, false))]⟩ =
      ((some 3, true),
        ⟨[], [], [[("x", (some 1, false))], [("y", (some 2, true)), ("x", (some 3, true))], []],
          [("x", (some 4, false))]⟩) :=
  (FindVar_innermost_binding_wins
    ⟨[], [], [[("x", (some 1, false))], [("y", (some 2, true)), ("x", (some 3, true))], []],
      [("x", (some 4, false))]⟩ "x"
    [[("x", (some 1, false))]] [[]] [("y", (some 2, true)), ("x", (some 3, true))]
    (some 3, true) rfl (by decide) (by decide)).1

/-- C9: when a name is bound in no local table and not in the global table,
`FindVar` returns the default binding (null pointer, `false`); afterwards the
global table maps the name to that binding, every other global entry is as
before, and the local tables and jump-target stacks are unchanged. -/
theorem FindVar_absent_inserts_default (ctx : CodeGenContext) (name : String)
    (hl : ∀ t ∈ ctx.mLocalScope, t.find name = none)
    (hg : ctx.mGlobalScope.find name = none) :
    (FindVar name ctx).1 = (none, false) ∧
    (FindVar name ctx).2.mGlobalScope.find name = some (none, false) ∧
    (∀ k : String, k ≠ name →
      (FindVar name ctx).2.mGlobalScope.find k = ctx.mGlobalScope.find k) ∧
    (FindVar name ctx).2.mLocalScope = ctx.mLocalScope ∧
    (FindVar name ctx).2.mBreaks = ctx.mBreaks ∧
    (FindVar name ctx).2.mContinues = ctx.mContinues := by
  have hn : FindVar.loop name ctx.mLocalScope.reverse = none :=
    FindVar.loop_none name _ (fun u hu => hl u (List.mem_reverse.mp hu))
  have hsub : ctx.mGlobalScope.subscript name =
      ((none, false), (name, (none, false)) :: ctx.mGlobalScope) := by
    simp [Table.subscript, hg, LLVMValueSignPair.dflt]
  unfold FindVar
  rw [hn]
  rw [hsub]
  refine ⟨rfl, ?_, ?_, rfl, rfl, rfl⟩
  · show Table.find ((name, (none, false)) :: ctx.mGlobalScope) name = some (none, false)
    simp [Table.find, List.lookup_cons]
  · intro k hk
    show Table.find ((name, (none, false)) :: ctx.mGlobalScope) k = ctx.mGlobalScope.find k
    have hb : (k == name) = false := by simpa using hk
    simp [Table.find, List.lookup_cons, hb]

/-- C9 at a concrete environment: `z` is bound nowhere. -/
theorem FindVar_absent_inserts_default_witness :
    (FindVar "z" ⟨[], [], [[("x", (some 1, false))], []], [("g", (some 4, true))]⟩).1 =
        (none, false) ∧
    (FindVar "z" ⟨[], [], [[("x", (some 1, false))], []],
        [("g", (some 4, true))]⟩).2.mGlobalScope =
      [("z", (none, false)), ("g", (some 4, true))] :=
  ⟨(FindVar_absent_inserts_default
      ⟨[], [], [[("x", (some 1, false))], []], [("g", (some 4, true))]⟩ "z"
      (by decide) (by decide)).1, by decide⟩

/-! ## Parser: proofs -/

theorem bind_eq_ok {α β : Type} {x : Except Err α} {f : α → Except Err β} {b : β} :
    (x >>= f) = .ok b ↔ ∃ a, x = .ok a ∧ f a = .ok b := by
  cases x with
  | error e => simp [bind, Except.bind]
  | ok a => simp [bind, Except.bind]

theorem assert_eq_ok {b : Bool} {u : Unit} : assert b = .ok u ↔ b = true := by
  cases b <;> simp [assert]

theorem tokAt_append (pre post : List Token) (t : Token) :
    tokAt (pre ++ t :: post) pre.length = .ok t := by
  rw [tokAt, List.getElem?_append_right (le_refl _)]
  simp

theorem tokAt_eq_ok {toks : List Token} {cur : Nat} {t : Token} :
    tokAt toks cur = .ok t ↔ toks[cur]? = some t := by
  unfold tokAt
  cases h : toks[cur]? <;> simp

/-- C6: whenever `IsFunction` returns, with either outcome, the cursor after
the call is the cursor before the call. -/
theorem IsFunction_restores_cursor (toks : List Token) (cur : Nat) (isFunc : Bool)
    (after : Nat) (h : IsFunction toks cur = .ok (isFunc, after)) : after = cur := by
  unfold IsFunction at h
  simp only [bind_eq_ok, pure, Except.pure, Except.ok.injEq, Prod.mk.injEq] at h
  obtain ⟨_, _, _, _, _, _, _, _, _, _, _, _, _, h⟩ := h
  exact h.symm

/-- C6 at concrete inputs: in the tokens of `int x = ; long foo ( ) ;` the
lookahead at cursor 4 answers true and the one at cursor 0 answers false, and
each leaves the cursor where it was. -/
theorem IsFunction_restores_cursor_witness :
    (∃ after, IsFunction toksDeclThenFunction 4 = .ok (true, after) ∧ after = 4) ∧
    (∃ after, IsFunction toksDeclThenFunction 0 = .ok (false, after) ∧ after = 0) :=
  ⟨⟨4, rfl, IsFunction_restores_cursor toksDeclThenFunction 4 true 4 rfl⟩,
   ⟨0, rfl, IsFunction_restores_cursor toksDeclThenFunction 0 false 0 rfl⟩⟩

theorem isTypeKw_of_kind {type : TokenType} {k : TypeKind}
    (h : TokenTypeToTypeKind type = .ok k) : isTypeKw type = true := by
  cases type <;> first | rfl | (simp [TokenTypeToTypeKind] at h)

theorem ParseType.loop_run (r : Token) (post : List Token) (hr : isTypeKw r.type = false) :
    ∀ (specs : List Token) (kinds : List TypeKind) (pre : List Token)
      (acc : List TypeKind) (fuel : Nat),
      specs.map (fun s => TokenTypeToTypeKind s.type) = kinds.map Except.ok →
      specs.length < fuel →
      ParseType.loop (pre ++ specs ++ r :: post) fuel pre.length acc =
        .ok (acc ++ kinds, pre.length + specs.length)
  | [], kinds, pre, acc, fuel, hk, hf => by
    obtain ⟨n, rfl⟩ : ∃ n, fuel = n + 1 := ⟨fuel - 1, by simp at hf; omega⟩
    have hkn : kinds = [] := by simpa using hk.symm
    subst hkn
    simp [ParseType.loop, IsTypeName, tokAt_append, bind, Except.bind, pure, Except.pure, hr]
  | s :: specs, kinds, pre, acc, fuel, hk, hf => by
    obtain ⟨n, rfl⟩ : ∃ n, fuel = n + 1 := ⟨fuel - 1, by simp at hf; omega⟩
    cases kinds with
    | nil => simp at hk
    | cons k kinds =>
      simp only [List.map_cons, List.cons.injEq] at hk
      obtain ⟨hs, hk⟩ := hk
      have ih := ParseType.loop_run r post hr specs kinds (pre ++ [s]) (acc ++ [k]) n hk
        (by simp at hf; omega)
      have e1 : pre ++ s :: specs ++ r :: post = pre ++ [s] ++ specs ++ r :: post := by simp
      have e2 : tokAt (pre ++ s :: specs ++ r :: post) pre.length = .ok s := by
        have := tokAt_append pre (specs ++ r :: post) s
        simpa using this
      rw [ParseType.loop]
      simp only [IsTypeName, e2, bind, Except.bind, pure, Except.pure, isTypeKw_of_kind hs,
        if_true, hs]
      rw [e1, show pre.length + 1 = (pre ++ [s]).length by simp, ih]
      simp
      omega

theorem ParseTypeFrom_run (r : Token) (post : List Token) (hr : r.type ≠ .star)
    (baseType : Ty) :
    ∀ (stars pre : List Token) (fuel : Nat),
      (∀ s ∈ stars, s.type = .star) → stars.length < fuel →
      ParseTypeFrom (pre ++ stars ++ r :: post) fuel baseType pre.length =
        .ok (pointerNest stars.length baseType, pre.length + stars.length)
  | [], pre, fuel, _, hf => by
    obtain ⟨n, rfl⟩ : ∃ n, fuel = n + 1 := ⟨fuel - 1, by simp at hf; omega⟩
    simp [ParseTypeFrom, Match, tokAt_append, bind, Except.bind, pure, Except.pure, hr,
      pointerNest]
  | s :: stars, pre, fuel, hs, hf => by
    obtain ⟨n, rfl⟩ : ∃ n, fuel = n + 1 := ⟨fuel - 1, by simp at hf; omega⟩
    have ih := ParseTypeFrom_run r post hr baseType stars (pre ++ [s]) n
      (fun u hu => hs u (by simp [hu])) (by simp at hf; omega)
    have hss : s.type = .star := hs s (by simp)
    have e1 : pre ++ s :: stars ++ r :: post = pre ++ [s] ++ stars ++ r :: post := by simp
    have e2 : tokAt (pre ++ s :: stars ++ r :: post) pre.length = .ok s := by
      have := tokAt_append pre (stars ++ r :: post) s
      simpa using this
    rw [ParseTypeFrom]
    simp only [Match, e2, bind, Except.bind, pure, Except.pure, hss, if_true]
    rw [e1, show pre.length + 1 = (pre ++ [s]).length by simp, ih]
    simp [pointerNest]
    omega

theorem ParseType_run (pre specs stars post : List Token) (t : Token)
    (kinds : List TypeKind) (hne : specs ≠ [])
    (hk : specs.map (fun s => TokenTypeToTypeKind s.type) = kinds.map Except.ok)
    (hst : ∀ s ∈ stars, s.type = .star)
    (ht : isTypeKw t.type = false) (ht2 : t.type ≠ .star) :
    ParseType (pre ++ specs ++ stars ++ t :: post) pre.length =
      .ok (pointerNest stars.length (.PrimaryType kinds),
        pre.length + specs.length + stars.length) := by
  have hkne : kinds ≠ [] := by
    intro h
    subst h
    exact hne (by simpa using hk)
  have hloop : ParseType.loop (pre ++ specs ++ stars ++ t :: post)
      ((pre ++ specs ++ stars ++ t :: post).length - pre.length + 1) pre.length [] =
      .ok (kinds, pre.length + specs.length) := by
    cases stars with
    | nil =>
      have := ParseType.loop_run t post ht specs kinds pre []
        ((pre ++ specs ++ [] ++ t :: post).length - pre.length + 1) hk
        (by simp; omega)
      simpa using this
    | cons s stars =>
      have hs : isTypeKw s.type = false := by rw [hst s (by simp)]; rfl
      have := ParseType.loop_run s (stars ++ t :: post) hs specs kinds pre []
        ((pre ++ specs ++ s :: stars ++ t :: post).length - pre.length + 1) hk
        (by simp; omega)
      simpa using this
  have hfrom := ParseTypeFrom_run t post ht2 (.PrimaryType kinds) stars (pre ++ specs)
    ((pre ++ specs ++ stars ++ t :: post).length - (pre.length + specs.length) + 1) hst
    (by simp; omega)
  unfold ParseType
  rw [hloop]
  simp only [bind, Except.bind]
  have hemp : (!kinds.isEmpty) = true := by
    cases kinds with
    | nil => exact absurd rfl hkne
    | cons _ _ => rfl
  rw [hemp]
  simp only [assert, if_true]
  have hlen : (pre ++ specs).length = pre.length + specs.length := List.length_append _ _
  rw [hlen] at hfrom
  exact hfrom

theorem TokenTypeToTypeKind_keyword (k : TypeKind) :
    TokenTypeToTypeKind k.keyword = .ok k := by
  cases k <;> rfl

theorem isTypeKw_iff_keyword (type : TokenType) :
    isTypeKw type = true ↔ ∃ k : TypeKind, type = k.keyword := by
  constructor
  · intro h
    cases type <;>
      first
      | exact ⟨.Auto, rfl⟩
      | exact ⟨.Char, rfl⟩
      | exact ⟨.Short, rfl⟩
      | exact ⟨.Int, rfl⟩
      | exact ⟨.Long, rfl⟩
      | exact ⟨.Float, rfl⟩
      | exact ⟨.Double, rfl⟩
      | exact ⟨.Signed, rfl⟩
      | exact ⟨.UnSigned, rfl⟩
      | exact absurd h (by decide)
      | (simp [isTypeKw] at h)
  · rintro ⟨k, rfl⟩
    cases k <;> rfl

theorem map_kind_of_keywords :
    ∀ (specs : List Token) (kinds : List TypeKind),
      specs.map Token.type = kinds.map TypeKind.keyword →
      specs.map (fun s => TokenTypeToTypeKind s.type) = kinds.map Except.ok
  | [], [], _ => rfl
  | [], _ :: _, h => by simp at h
  | _ :: _, [], h => by simp at h
  | s :: specs, k :: kinds, h => by
    simp only [List.map_cons, List.cons.injEq] at h
    have ih := map_kind_of_keywords specs kinds h.2
    simp only [List.map_cons, h.1, TokenTypeToTypeKind_keyword, ih]

/-- C4: on a non-empty run of type-specifier tokens `specs`, the keywords of
the kinds `kinds` in that order, followed by `stars.length` tokens `*` and
then a token that is neither a type specifier nor `*`, `ParseType` returns
`PrimaryType kinds`, the kinds in source order (`Auto` for `auto`, `Char` for
`char`, `Short` for `short`, `Int` for `int`, `Long` for `long`, `Float` for
`float`, `Double` for `double`, `Signed` for `signed`, `UnSigned` for
`unsigned`), under exactly `stars.length` layers of `PointerType`, and leaves
the cursor just after the last `*`.  Every type-specifier token is the keyword
of one kind, so every run of type specifiers is covered. -/
theorem ParseType_pointer_depth (pre specs stars post : List Token) (t : Token)
    (kinds : List TypeKind) (hne : specs ≠ [])
    (hk : specs.map Token.type = kinds.map TypeKind.keyword)
    (hst : ∀ s ∈ stars, s.type = .star)
    (ht : isTypeKw t.type = false) (ht2 : t.type ≠ .star) :
    ParseType (pre ++ specs ++ stars ++ t :: post) pre.length =
      .ok (pointerNest stars.length (.PrimaryType kinds),
        pre.length + specs.length + stars.length) ∧
    specs.map (fun s => TokenTypeToTypeKind s.type) = kinds.map Except.ok ∧
    ∀ type, isTypeKw type = true ↔ ∃ k : TypeKind, type = k.keyword :=
  ⟨ParseType_run pre specs stars post t kinds hne (map_kind_of_keywords specs kinds hk)
      hst ht ht2,
    map_kind_of_keywords specs kinds hk, isTypeKw_iff_keyword⟩

/-- C4 on the tokens of `int **p`, where the result is
`Pointer(Pointer(Primary([Int])))` with the cursor at `p`, and on the tokens of
`auto char short int long float double signed unsigned * q`, where each of the
nine specifiers gives its own kind. -/
theorem ParseType_pointer_depth_witness :
    ParseType toksIntPtrPtrP 0 =
      .ok (.PointerType (.PointerType (.PrimaryType [.Int])), 3) ∧
    ParseType toksAllSpecifiersPtr 0 =
      .ok (.PointerType (.PrimaryType
        [.Auto, .Char, .Short, .Int, .Long, .Float, .Double, .Signed, .UnSigned]), 10) :=
  ⟨(ParseType_pointer_depth [] [tk .kw_int] [tk .star, tk .star] [] (ident "p") [.Int]
      (by decide) rfl (by decide) rfl (by decide)).1,
   (ParseType_pointer_depth []
      [tk .kw_auto, tk .kw_char, tk .kw_short, tk .kw_int, tk .kw_long, tk .kw_float,
       tk .kw_double, tk .kw_signed, tk .kw_unsigned]
      [tk .star] [] (ident "q")
      [.Auto, .Char, .Short, .Int, .Long, .Float, .Double, .Signed, .UnSigned]
      (by decide) rfl (by decide) rfl (by decide)).1⟩

/-- C1 fails on the code at `int foo(int a, int b);`: after the named parameter
`a` the comma is still under the cursor, the loop calls `ParseType` on it and
the assertion that a type specifier was read fails.  Declarations with no
parameter or one named parameter are returned as the claim says. -/
theorem ParseFunction_two_named_params_abort (fuel : Nat) :
    ParseFunction toksFooAB fuel 0 = .error .assertFail ∧
    ParseFunction toksFooA fuel 0 =
      .ok (⟨.PrimaryType [.Int], "foo", [(.PrimaryType [.Int], "a")], none⟩, 7) ∧
    ParseFunction toksFooDecl fuel 0 = .ok (⟨.PrimaryType [.Int], "foo", [], none⟩, 5) :=
  ⟨rfl, rfl, rfl⟩

/-- C7 fails on the code at `int foo(int);`: a parameter type followed by `)`
runs into the assertion that an identifier follows and the parse aborts.  A
parameter type followed by `,` does give an anonymous parameter, as in
`int foo(int, int b);`. -/
theorem ParseFunction_anonymous_before_paren_aborts (fuel : Nat) :
    ParseFunction toksFooInt fuel 0 = .error .assertFail ∧
    ParseFunction toksFooIntIntB fuel 0 =
      .ok (⟨.PrimaryType [.Int], "foo",
        [(.PrimaryType [.Int], ""), (.PrimaryType [.Int], "b")], none⟩, 9) :=
  ⟨rfl, rfl⟩

theorem Consume_eq_ok {toks : List Token} {cur : Nat} {type : TokenType} {b : Bool}
    {after : Nat} (h : Consume toks cur type = .ok (b, after)) :
    after = cur + 1 ∧ ∃ t, toks[cur]? = some t ∧ t.type = type := by
  unfold Consume at h
  rw [bind_eq_ok] at h
  obtain ⟨t, ht, h⟩ := h
  by_cases hty : t.type = type
  · simp [hty, pure, Except.pure] at h
    exact ⟨h.2.symm, t, tokAt_eq_ok.mp ht, hty⟩
  · simp [hty] at h

theorem ParseFunction.header_cursor {toks : List Token} {cur p : Nat}
    {r : Ty × String × List (Ty × String)}
    (h : ParseFunction.header toks cur = .ok (r, p)) :
    ∃ q rp, p = q + 1 ∧ toks[q]? = some rp ∧ rp.type = .r_paren := by
  unfold ParseFunction.header at h
  simp only [bind_eq_ok, pure, Except.pure, Except.ok.injEq, Prod.mk.injEq, Prod.exists] at h
  obtain ⟨_, _, _, _, _, _, _, _, _, _, _, _, _, _, _, _, _, _, _, _, _, _, _, _, c4,
    _, _, c5, hc, _, hp⟩ := h
  obtain ⟨h1, t, ht, hty⟩ := Consume_eq_ok hc
  exact ⟨c4, t, by omega, ht, hty⟩

/-- C5: whenever `ParseFunction` returns a `Function`, the return type, name
and parameters are those of the header, which ends just after the closing `)`
of the parameter list at a cursor `p`; the body is absent exactly when the
token at `p` is `;`, which is then consumed, and otherwise the body is the
`BlockStmt` that `ParseBlockStmt` returns at `p`.  On the tokens of
`int foo() { }` the result is `Function{foo, [], BlockStmt{[]}}`. -/
theorem ParseFunction_body_iff_no_semi (toks : List Token) (fuel cur : Nat)
    (f : Function) (after : Nat) (h : ParseFunction toks fuel cur = .ok (f, after)) :
    (∃ (retType : Ty) (funcName : String) (params : List (Ty × String)) (p : Nat)
        (t : Token),
      ParseFunction.header toks cur = .ok ((retType, funcName, params), p) ∧
      (∃ q rp, p = q + 1 ∧ toks[q]? = some rp ∧ rp.type = .r_paren) ∧
      toks[p]? = some t ∧
      f.retType = retType ∧ f.name = funcName ∧ f.params = params ∧
      (f.body = none ↔ t.type = .semi) ∧
      (t.type = .semi → after = p + 1) ∧
      (t.type ≠ .semi →
        ∃ b, ParseBlockStmt toks fuel p = .ok (b, after) ∧ f.body = some b)) ∧
    ∀ n, ParseFunction toksFooEmptyBody (n + 2) 0 =
      .ok (⟨.PrimaryType [.Int], "foo", [], some ⟨[]⟩⟩, 6) := by
  refine ⟨?_, fun _ => rfl⟩
  unfold ParseFunction at h
  rw [bind_eq_ok] at h
  obtain ⟨⟨⟨retType, funcName, params⟩, p⟩, hh, h⟩ := h
  simp only [] at h
  rw [bind_eq_ok] at h
  obtain ⟨t, ht, h⟩ := h
  refine ⟨retType, funcName, params, p, t, hh, ParseFunction.header_cursor hh,
    tokAt_eq_ok.mp ht, ?_⟩
  by_cases hs : t.type = .semi
  · rw [if_pos hs, bind_eq_ok] at h
    obtain ⟨⟨b, c6⟩, hc, h⟩ := h
    simp only [pure, Except.pure, Except.ok.injEq, Prod.mk.injEq] at h
    obtain ⟨hf, ha⟩ := h
    subst hf
    refine ⟨rfl, rfl, rfl, ⟨fun _ => hs, fun _ => rfl⟩, fun _ => ?_, fun hn => absurd hs hn⟩
    rw [← ha]
    exact (Consume_eq_ok hc).1
  · rw [if_neg hs, bind_eq_ok] at h
    obtain ⟨⟨b, c6⟩, hb, h⟩ := h
    simp only [pure, Except.pure, Except.ok.injEq, Prod.mk.injEq] at h
    obtain ⟨hf, ha⟩ := h
    subst hf
    subst ha
    exact ⟨rfl, rfl, rfl, Iff.intro (fun hbody => Option.noConfusion hbody) (fun hsemi => absurd hsemi hs),
      fun hsemi => absurd hsemi hs, fun _ => ⟨b, hb, rfl⟩⟩

/-- C5 on the tokens of `int foo();`: the token after `)` is `;`, the body is
absent and the cursor ends after the `;`. -/
theorem ParseFunction_body_iff_no_semi_witness :
    ∃ (retType : Ty) (funcName : String) (params : List (Ty × String)) (p : Nat)
        (t : Token),
      ParseFunction.header toksFooDecl 0 = .ok ((retType, funcName, params), p) ∧
      (∃ q rp, p = q + 1 ∧ toksFooDecl[q]? = some rp ∧ rp.type = .r_paren) ∧
      toksFooDecl[p]? = some t ∧
      Function.retType ⟨.PrimaryType [.Int], "foo", [], none⟩ = retType ∧
      Function.name ⟨.PrimaryType [.Int], "foo", [], none⟩ = funcName ∧
      Function.params ⟨.PrimaryType [.Int], "foo", [], none⟩ = params ∧
      (Function.body ⟨.PrimaryType [.Int], "foo", [], none⟩ = none ↔ t.type = .semi) ∧
      (t.type = .semi → 5 = p + 1) ∧
      (t.type ≠ .semi →
        ∃ b, ParseBlockStmt toksFooDecl 0 p = .ok (b, 5) ∧
          Function.body ⟨.PrimaryType [.Int], "foo", [], none⟩ = some b) :=
  (ParseFunction_body_iff_no_semi toksFooDecl 0 0
    ⟨.PrimaryType [.Int], "foo", [], none⟩ 5 rfl).1

theorem ParseType_ok_isTypeName {toks : List Token} {cur c1 : Nat} {ty : Ty}
    (h : ParseType toks cur = .ok (ty, c1)) : IsTypeName toks cur = .ok true := by
  unfold ParseType at h
  rw [bind_eq_ok] at h
  obtain ⟨⟨kinds, c⟩, hl, h⟩ := h
  simp only [] at h
  rw [bind_eq_ok] at h
  obtain ⟨u, ha, _⟩ := h
  rw [assert_eq_ok] at ha
  rw [ParseType.loop] at hl
  cases hT : IsTypeName toks cur with
  | error e => rw [hT] at hl; simp [bind, Except.bind] at hl
  | ok b =>
    cases b with
    | true => rfl
    | false =>
      rw [hT] at hl
      simp [bind, Except.bind, pure, Except.pure] at hl
      rw [hl.1] at ha
      simp at ha

theorem Match_hit {toks : List Token} {cur : Nat} {type : TokenType} {t : Token}
    (ht : toks[cur]? = some t) (hty : t.type = type) :
    Match toks cur type = .ok (true, cur + 1) := by
  simp [Match, tokAt_eq_ok.mpr ht, hty, bind, Except.bind, pure, Except.pure]

theorem Match_miss {toks : List Token} {cur : Nat} {type : TokenType} {t : Token}
    (ht : toks[cur]? = some t) (hty : t.type ≠ type) :
    Match toks cur type = .ok (false, cur) := by
  simp [Match, tokAt_eq_ok.mpr ht, hty, bind, Except.bind, pure, Except.pure]

theorem AddLocalSeq_on_pushed (br co : List Nat) (g : Table) (ls : List Table) :
    ∀ (adds : List (String × LLVMValueSignPair)) (top : Table),
      ∃ top1 : Table, AddLocalSeq adds ⟨br, co, ls ++ [top], g⟩ =
        some ⟨br, co, ls ++ [top1], g⟩
  | [], top => ⟨top, rfl⟩
  | (name, v) :: rest, top => by
    obtain ⟨top1, h⟩ := AddLocalSeq_on_pushed br co g ls rest (top.assign name v)
    refine ⟨top1, ?_⟩
    rw [AddLocalSeq]
    simp [AddLocal, h]

/-- C11: from every scope environment `s` (whatever the depth of its local
stack), `PushScope()`, then any finite sequence of `AddLocal` calls, then
`PopScope()` are all defined and end in `s` itself: the local-table stack and
the global table are those of `s`, so `FindVar` answers every name as it does
in `s` and none of the bindings added in between is found. -/
theorem PushScope_AddLocal_PopScope_restores (s : CodeGenContext)
    (adds : List (String × LLVMValueSignPair)) :
    ∃ e s1 : CodeGenContext,
      AddLocalSeq adds (PushScope s) = some e ∧ PopScope e = some s1 ∧
      s1.mLocalScope = s.mLocalScope ∧ s1.mGlobalScope = s.mGlobalScope ∧
      s1 = s ∧ ∀ name, FindVar name s1 = FindVar name s := by
  obtain ⟨top1, h⟩ :=
    AddLocalSeq_on_pushed s.mBreaks s.mContinues s.mGlobalScope s.mLocalScope adds []
  refine ⟨_, s, h, ?_, rfl, rfl, rfl, fun _ => rfl⟩
  simp [PopScope]

/-- C12: from every scope environment, whatever the depth of its local stack,
`ClearScope()` leaves a local stack of exactly one table, which is empty, and
does not change the global table (nor the jump-target stacks). -/
theorem ClearScope_single_empty_table (ctx : CodeGenContext) :
    (ClearScope ctx).mLocalScope = [[]] ∧
    (ClearScope ctx).mLocalScope.length = 1 ∧
    (∀ t ∈ (ClearScope ctx).mLocalScope, ∀ name, t.find name = none) ∧
    (ClearScope ctx).mGlobalScope = ctx.mGlobalScope ∧
    (ClearScope ctx).mBreaks = ctx.mBreaks ∧
    (ClearScope ctx).mContinues = ctx.mContinues := by
  refine ⟨rfl, rfl, ?_, rfl, rfl, rfl⟩
  intro t ht name
  have : t = [] := by simpa [ClearScope, PushScope] using ht
  subst this
  rfl

/-! ## Expressions and declarations that never parse -/

theorem bind_error {α β : Type} {x : Except Err α} {f : α → Except Err β} {e : Err}
    (h : x = .error e) : (x >>= f) = .error e := by
  subst h
  rfl

theorem bind_ne_ok {α β : Type} {x : Except Err α} {f : α → Except Err β}
    (h : ∀ a, x ≠ .ok a) : ∀ b, (x >>= f) ≠ .ok b := by
  intro b hb
  obtain ⟨a, ha, _⟩ := bind_eq_ok.mp hb
  exact h a ha

/-- C15: with a token `t` under the cursor, `ParseConstantExpr` aborts when the
kind of `t` is none of char constant, string literal and numeric constant, and
returns only for those three kinds; for a char constant carrying an int32 it
returns that int32, for a string literal carrying a string that string, for a
numeric constant carrying an integer that int32 and for one carrying a floating
value that double; a numeric constant always gives a result.  The cursor is
not moved. -/
theorem ParseConstantExpr_literal (toks : List Token) (cur : Nat) (t : Token)
    (ht : toks[cur]? = some t) :
    (t.type ≠ .char_constant → t.type ≠ .string_literal → t.type ≠ .numeric_constant →
      ParseConstantExpr toks cur = .error .assertFail) ∧
    (∀ r, ParseConstantExpr toks cur = .ok r →
      t.type = .char_constant ∨ t.type = .string_literal ∨ t.type = .numeric_constant) ∧
    (t.type = .numeric_constant → ∃ c, ParseConstantExpr toks cur = .ok (c, cur)) ∧
    (∀ v, t.type = .char_constant → t.value = .int32 v →
      ParseConstantExpr toks cur = .ok (⟨.int32 v⟩, cur)) ∧
    (∀ s, t.type = .string_literal → t.value = .string s →
      ParseConstantExpr toks cur = .ok (⟨.string s⟩, cur)) ∧
    (∀ v, t.type = .numeric_constant → t.value = .int32 v →
      ParseConstantExpr toks cur = .ok (⟨.int32 v⟩, cur)) ∧
    (∀ d, t.type = .numeric_constant → t.value = .double d →
      ParseConstantExpr toks cur = .ok (⟨.double d⟩, cur)) := by
  have htok : tokAt toks cur = .ok t := tokAt_eq_ok.mpr ht
  obtain ⟨type, value⟩ := t
  have hab : type ≠ .char_constant → type ≠ .string_literal → type ≠ .numeric_constant →
      ParseConstantExpr toks cur = .error .assertFail := by
    intro h1 h2 h3
    unfold ParseConstantExpr
    cases type <;>
      first
      | exact absurd rfl h1
      | exact absurd rfl h2
      | exact absurd rfl h3
      | simp [ParseConstantExpr, htok, bind, Except.bind]
  refine ⟨hab, ?_, ?_, ?_, ?_, ?_, ?_⟩
  · intro r hr
    by_contra hn
    simp only [not_or] at hn
    simp [hab hn.1 hn.2.1 hn.2.2] at hr
  · intro h1
    simp only at h1
    subst h1
    cases value <;>
      simp [ParseConstantExpr, htok, bind, Except.bind, pure, Except.pure]
  · intro v h1 h2
    simp only at h1 h2
    subst h1 h2
    simp [ParseConstantExpr, htok, getInt32, bind, Except.bind, pure, Except.pure]
  · intro s h1 h2
    simp only at h1 h2
    subst h1 h2
    simp [ParseConstantExpr, htok, getString, bind, Except.bind, pure, Except.pure]
  · intro v h1 h2
    simp only at h1 h2
    subst h1 h2
    simp [ParseConstantExpr, htok, bind, Except.bind, pure, Except.pure]
  · intro d h1 h2
    simp only at h1 h2
    subst h1 h2
    simp [ParseConstantExpr, htok, bind, Except.bind, pure, Except.pure]

/-- C15 on `'a' "s" 7 2.5 ;`: the floating constant at cursor 3 is returned as
a double and the `;` at cursor 4 aborts. -/
theorem ParseConstantExpr_literal_witness :
    ParseConstantExpr toksLiterals 3 = .ok (⟨.double 4612811918334230528⟩, 3) ∧
    ParseConstantExpr toksLiterals 4 = .error .assertFail :=
  ⟨(ParseConstantExpr_literal toksLiterals 3 ⟨.numeric_constant, .double 4612811918334230528⟩
      rfl).2.2.2.2.2.2 _ rfl rfl,
   (ParseConstantExpr_literal toksLiterals 4 (tk .semi) rfl).1
      (by decide) (by decide) (by decide)⟩

theorem ParseAssignExpr_ne_ok (toks : List Token) :
    ∀ (fuel cur : Nat) (r : AssignExpr × Nat), ParseAssignExpr toks fuel cur ≠ .ok r
  | 0, _, _ => by simp [ParseAssignExpr]
  | fuel + 1, cur, r => by
    intro h
    rw [ParseAssignExpr] at h
    simp only [ParseConditionalExpr, bind_eq_ok, pure, Except.pure, Except.ok.injEq,
      Prod.mk.injEq, Prod.exists] at h
    obtain ⟨_, c1, _, t, _, h⟩ := h
    cases hop : isAssignOp t.type with
    | false => simp [hop] at h
    | true =>
      simp only [hop, if_true, bind_eq_ok, Prod.exists] at h
      obtain ⟨rhs, c2, hrec, _⟩ := h
      exact ParseAssignExpr_ne_ok toks fuel c1 (rhs, c2) hrec

theorem ParseAssignExpr_step (toks : List Token) (fuel cur : Nat) (t : Token)
    (ht : toks[cur]? = some t) (hop : isAssignOp t.type = true) :
    ParseAssignExpr toks (fuel + 1) cur = (do
      let (rhs, c2) ← ParseAssignExpr toks fuel cur
      pure (.mk none t.type (some rhs), c2)) := by
  rw [ParseAssignExpr]
  simp only [ParseConditionalExpr, tokAt_eq_ok.mpr ht, hop, bind, Except.bind, pure,
    Except.pure, if_true]

theorem ParseAssignExpr_out_of_fuel (toks : List Token) (cur : Nat) (t : Token)
    (ht : toks[cur]? = some t) (hop : isAssignOp t.type = true) :
    ∀ fuel, ParseAssignExpr toks fuel cur = .error .outOfFuel
  | 0 => rfl
  | fuel + 1 => by
    rw [ParseAssignExpr_step toks fuel cur t ht hop]
    exact bind_error (ParseAssignExpr_out_of_fuel toks cur t ht hop fuel)

theorem ParseExpr_ne_ok (toks : List Token) (fuel cur : Nat) (r : Expr × Nat) :
    ParseExpr toks fuel cur ≠ .ok r := by
  unfold ParseExpr
  exact bind_ne_ok (ParseAssignExpr_ne_ok toks fuel cur) r

/-- C17: at every cursor of every token stream `ParseAssignExpr` returns no
`AssignExpr`, with any amount of fuel, and so `ParseExpr` returns no `Expr`.
When the current token is not an assignment operator the call aborts.  When it
is one, the call is the same call again at the same cursor (the operator is not
consumed), so every bound on the recursion depth is exhausted. -/
theorem ParseAssignExpr_never_returns (toks : List Token) (fuel cur : Nat) :
    (∀ r, ParseAssignExpr toks fuel cur ≠ .ok r) ∧
    (∀ r, ParseExpr toks fuel cur ≠ .ok r) ∧
    (∀ t, toks[cur]? = some t → isAssignOp t.type = false →
      ParseAssignExpr toks (fuel + 1) cur = .error .assertFail) ∧
    (∀ t, toks[cur]? = some t → isAssignOp t.type = true →
      ParseAssignExpr toks (fuel + 1) cur = (do
        let (rhs, c2) ← ParseAssignExpr toks fuel cur
        pure (.mk none t.type (some rhs), c2)) ∧
      ParseAssignExpr toks fuel cur = .error .outOfFuel) := by
  refine ⟨ParseAssignExpr_ne_ok toks fuel cur, ParseExpr_ne_ok toks fuel cur, ?_, ?_⟩
  · intro t ht hop
    rw [ParseAssignExpr]
    simp [ParseConditionalExpr, tokAt_eq_ok.mpr ht, hop, bind, Except.bind, pure, Except.pure]
  · intro t ht hop
    exact ⟨ParseAssignExpr_step toks fuel cur t ht hop,
      ParseAssignExpr_out_of_fuel toks cur t ht hop fuel⟩

/-- C17 on the tokens of `x = 1`: at the identifier the call aborts, at the
`=` it runs out of any fuel, here 100. -/
theorem ParseAssignExpr_never_returns_witness :
    ParseAssignExpr toksAssign 1 0 = .error .assertFail ∧
    ParseAssignExpr toksAssign 100 1 = .error .outOfFuel :=
  ⟨(ParseAssignExpr_never_returns toksAssign 0 0).2.2.1 (ident "x") rfl rfl,
   ((ParseAssignExpr_never_returns toksAssign 100 1).2.2.2 (tk .equal) rfl rfl).2⟩

theorem Peek_eq {toks : List Token} {cur : Nat} {t : Token} (ht : toks[cur]? = some t)
    (type : TokenType) : Peek toks cur type = .ok (decide (t.type = type)) := by
  simp [Peek, tokAt_eq_ok.mpr ht, bind, Except.bind, pure, Except.pure]

theorem ParseDeclStmt_abort (toks : List Token) (fuel cur c1 : Nat) (ty : Ty)
    (name : String) (hty : ParseType toks cur = .ok (ty, c1))
    (hid : toks[c1]? = some ⟨.identifier, .string name⟩) :
    ParseDeclStmt toks fuel cur = .error .assertFail := by
  have hT := ParseType_ok_isTypeName hty
  have htok : tokAt toks c1 = .ok ⟨.identifier, .string name⟩ := tokAt_eq_ok.mpr hid
  have hE : Expect toks c1 .identifier = .ok true := by
    simp [Expect, htok, bind, Except.bind, pure, Except.pure]
  have hP : Peek toks c1 .equal = .ok false := by rw [Peek_eq hid]; rfl
  have hM : Match toks c1 .semi = .ok (false, c1) := Match_miss hid (by simp)
  unfold ParseDeclStmt
  simp only [hT, hty, hE, htok, hP, hM, assert, getString, bind, Except.bind, pure,
    Except.pure, if_true]
  rfl

theorem ParseDeclStmt_ne_ok (toks : List Token) (fuel cur : Nat) (r : Declaration × Nat) :
    ParseDeclStmt toks fuel cur ≠ .ok r := by
  intro h
  have h0 := h
  unfold ParseDeclStmt at h
  simp only [bind_eq_ok, Prod.exists] at h
  obtain ⟨_, _, _, _, ty, c1, hty, e, hE, t, ht, name, hn, _⟩ := h
  have ht1 := tokAt_eq_ok.mp ht
  have hkind : t.type = .identifier := by
    unfold Expect at hE
    rw [ht] at hE
    by_cases hk : t.type = .identifier
    · exact hk
    · simp [hk, bind, Except.bind] at hE
  obtain ⟨type, value⟩ := t
  simp only at hkind
  subst hkind
  cases value with
  | string s =>
    simp only [getString, Except.ok.injEq] at hn
    rw [ParseDeclStmt_abort toks fuel cur c1 ty s hty ht1] at h0
    cases h0
  | monostate => cases hn
  | int32 _ => cases hn
  | double _ => cases hn

/-- C18: at every cursor of every token stream `ParseDeclStmt` returns no
`Declaration`, and so `ParseForDeclStmt` returns nothing either.  After the
type the identifier is only inspected, not consumed: the test for `=` then
fails and the required match of `;` is made on the identifier and aborts. -/
theorem ParseDeclStmt_never_returns (toks : List Token) (fuel cur : Nat) :
    (∀ r, ParseDeclStmt toks fuel cur ≠ .ok r) ∧
    (∀ r, ParseForDeclStmt toks fuel cur ≠ .ok r) ∧
    (∀ ty c1 name, ParseType toks cur = .ok (ty, c1) →
      toks[c1]? = some ⟨.identifier, .string name⟩ →
      Peek toks c1 .equal = .ok false ∧ Match toks c1 .semi = .ok (false, c1) ∧
      ParseDeclStmt toks fuel cur = .error .assertFail) := by
  refine ⟨ParseDeclStmt_ne_ok toks fuel cur, ?_, ?_⟩
  · intro r h
    cases fuel with
    | zero => simp [ParseForDeclStmt] at h
    | succ n =>
      rw [ParseForDeclStmt] at h
      simp only [bind_eq_ok, Prod.exists] at h
      obtain ⟨_, _, _, _, c2, _, _, _, _, _, _, _, d, c3, hd, _⟩ := h
      exact ParseDeclStmt_ne_ok toks n c2 (d, c3) hd
  · intro ty c1 name hty hid
    exact ⟨by rw [Peek_eq hid]; rfl, Match_miss hid (by simp),
      ParseDeclStmt_abort toks fuel cur c1 ty name hty hid⟩

/-- C18 on the tokens of `int x ;`: the declaration aborts. -/
theorem ParseDeclStmt_never_returns_witness :
    ParseDeclStmt toksLocalDecl 5 0 = .error .assertFail :=
  ((ParseDeclStmt_never_returns toksLocalDecl 5 0).2.2 (.PrimaryType [.Int]) 1 "x"
    rfl rfl).2.2

/-! ## What the scanning loops have read when they return -/

theorem IsTypeName_eq_ok {toks : List Token} {cur : Nat} {b : Bool}
    (h : IsTypeName toks cur = .ok b) : ∃ t, toks[cur]? = some t ∧ isTypeKw t.type = b := by
  unfold IsTypeName at h
  simp only [bind_eq_ok, pure, Except.pure, Except.ok.injEq] at h
  obtain ⟨t, ht, hb⟩ := h
  exact ⟨t, tokAt_eq_ok.mp ht, hb⟩

theorem Match_eq_ok {toks : List Token} {cur : Nat} {type : TokenType} {b : Bool}
    {after : Nat} (h : Match toks cur type = .ok (b, after)) :
    ∃ t, toks[cur]? = some t ∧
      ((b = true ∧ t.type = type ∧ after = cur + 1) ∨
       (b = false ∧ t.type ≠ type ∧ after = cur)) := by
  unfold Match at h
  simp only [bind_eq_ok] at h
  obtain ⟨t, ht, h⟩ := h
  refine ⟨t, tokAt_eq_ok.mp ht, ?_⟩
  by_cases hty : t.type = type
  · simp [hty, pure, Except.pure] at h
    exact Or.inl ⟨by simp [h.1], hty, by omega⟩
  · simp [hty, pure, Except.pure] at h
    exact Or.inr ⟨by simp [h.1], hty, by omega⟩

theorem typeRunAt_succ {toks : List Token} {cur m : Nat} {t : Token}
    (ht : toks[cur]? = some t) (hk : isTypeKw t.type = true)
    (h : typeRunAt toks (cur + 1) m) : typeRunAt toks cur (m + 1) := by
  intro i hi
  cases i with
  | zero => exact ⟨t, by simpa using ht, hk⟩
  | succ i =>
    obtain ⟨u, hu, huk⟩ := h i (by omega)
    exact ⟨u, by rw [← hu]; congr 1; omega, huk⟩

theorem starRunAt_succ {toks : List Token} {cur n : Nat} {t : Token}
    (ht : toks[cur]? = some t) (hk : t.type = .star)
    (h : starRunAt toks (cur + 1) n) : starRunAt toks cur (n + 1) := by
  intro i hi
  cases i with
  | zero => exact ⟨t, by simpa using ht, hk⟩
  | succ i =>
    obtain ⟨u, hu, huk⟩ := h i (by omega)
    exact ⟨u, by rw [← hu]; congr 1; omega, huk⟩

theorem ParseType.loop_inv (toks : List Token) :
    ∀ (fuel cur : Nat) (acc kinds : List TypeKind) (c : Nat),
      ParseType.loop toks fuel cur acc = .ok (kinds, c) →
      ∃ m ks, c = cur + m ∧ kinds = acc ++ ks ∧ ks.length = m ∧ typeRunAt toks cur m ∧
        ∃ t, toks[c]? = some t ∧ isTypeKw t.type = false
  | 0, _, _, _, _, h => by simp [ParseType.loop] at h
  | fuel + 1, cur, acc, kinds, c, h => by
    rw [ParseType.loop] at h
    simp only [bind_eq_ok] at h
    obtain ⟨b, hb, h⟩ := h
    obtain ⟨t, ht, htk⟩ := IsTypeName_eq_ok hb
    cases b with
    | false =>
      simp [pure, Except.pure] at h
      obtain ⟨h1, h2⟩ := h
      subst h1 h2
      exact ⟨0, [], rfl, by simp, rfl, fun i hi => absurd hi (by omega), t, ht, htk⟩
    | true =>
      simp only [if_true, bind_eq_ok] at h
      obtain ⟨_, _, k, _, h⟩ := h
      obtain ⟨m, ks, hc, hkinds, hlen, hrun, hstop⟩ :=
        ParseType.loop_inv toks fuel (cur + 1) (acc ++ [k]) kinds c h
      exact ⟨m + 1, k :: ks, by omega, by simp [hkinds], by simp [hlen],
        typeRunAt_succ ht htk hrun, hstop⟩

theorem ParseTypeFrom_inv (toks : List Token) (baseType : Ty) :
    ∀ (fuel cur : Nat) (ty : Ty) (c : Nat),
      ParseTypeFrom toks fuel baseType cur = .ok (ty, c) →
      ∃ n, c = cur + n ∧ ty = pointerNest n baseType ∧ starRunAt toks cur n ∧
        ∃ t, toks[c]? = some t ∧ t.type ≠ .star
  | 0, _, _, _, h => by simp [ParseTypeFrom] at h
  | fuel + 1, cur, ty, c, h => by
    rw [ParseTypeFrom] at h
    simp only [bind_eq_ok, Prod.exists] at h
    obtain ⟨b, c1, hm, h⟩ := h
    obtain ⟨t, ht, hcase⟩ := Match_eq_ok hm
    rcases hcase with ⟨hb, hty, hc1⟩ | ⟨hb, hty, hc1⟩
    · subst hb hc1
      simp only [if_true, bind_eq_ok, Prod.exists, pure, Except.pure, Except.ok.injEq,
        Prod.mk.injEq] at h
      obtain ⟨ty1, c2, hrec, h1, h2⟩ := h
      subst h1 h2
      obtain ⟨n, hc, hty1, hrun, hstop⟩ := ParseTypeFrom_inv toks baseType fuel (cur + 1) ty1 c2 hrec
      exact ⟨n + 1, by omega, by rw [hty1]; rfl, starRunAt_succ ht hty hrun, hstop⟩
    · subst hb hc1
      simp [pure, Except.pure] at h
      obtain ⟨h1, h2⟩ := h
      subst h1 h2
      exact ⟨0, rfl, rfl, fun i hi => absurd hi (by omega), t, ht, hty⟩

theorem ParseType_inv {toks : List Token} {cur c1 : Nat} {ty : Ty}
    (h : ParseType toks cur = .ok (ty, c1)) :
    ∃ m n kinds, 0 < m ∧ c1 = cur + m + n ∧ ty = pointerNest n (.PrimaryType kinds) ∧
      kinds.length = m ∧ typeRunAt toks cur m ∧ starRunAt toks (cur + m) n ∧
      (∃ t, toks[cur + m]? = some t ∧ isTypeKw t.type = false) ∧
      ∃ t, toks[c1]? = some t ∧ t.type ≠ .star := by
  unfold ParseType at h
  simp only [bind_eq_ok, Prod.exists] at h
  obtain ⟨kinds, c, hl, _, ha, hf⟩ := h
  obtain ⟨m, ks, hc, hk, hlen, hrun, hstop⟩ := ParseType.loop_inv toks _ cur [] kinds c hl
  obtain ⟨n, hc1, hty, hstars, hstop2⟩ := ParseTypeFrom_inv toks _ _ c ty c1 hf
  simp only [List.nil_append] at hk
  subst hk
  have hm : 0 < m := by
    rw [assert_eq_ok] at ha
    cases kinds with
    | nil => simp at ha
    | cons _ _ => simp at hlen; omega
  subst hc
  exact ⟨m, n, kinds, hm, hc1, hty, hlen, hrun, hstars, hstop, hstop2⟩

theorem IsFunction.scan_inv (toks : List Token) :
    ∀ (fuel cur c : Nat), IsFunction.loop toks fuel cur = .ok c →
      ∃ m, c = cur + m ∧ typeRunAt toks cur m ∧
        ∃ t, toks[c]? = some t ∧ isTypeKw t.type = false
  | 0, _, _, h => by simp [IsFunction.loop] at h
  | fuel + 1, cur, c, h => by
    rw [IsFunction.loop] at h
    simp only [bind_eq_ok] at h
    obtain ⟨b, hb, h⟩ := h
    obtain ⟨t, ht, htk⟩ := IsTypeName_eq_ok hb
    cases b with
    | false =>
      simp [pure, Except.pure] at h
      subst h
      exact ⟨0, rfl, fun i hi => absurd hi (by omega), t, ht, htk⟩
    | true =>
      simp only [if_true] at h
      obtain ⟨m, hc, hrun, hstop⟩ := IsFunction.scan_inv toks fuel (cur + 1) c h
      exact ⟨m + 1, by omega, typeRunAt_succ ht htk hrun, hstop⟩

theorem IsFunction_inv {toks : List Token} {cur after : Nat} {b : Bool}
    (h : IsFunction toks cur = .ok (b, after)) :
    ∃ m, 0 < m ∧ typeRunAt toks cur m ∧ kindAt toks (cur + m) .identifier := by
  unfold IsFunction at h
  simp only [bind_eq_ok, Prod.exists] at h
  obtain ⟨b0, hb0, _, ha0, c1, hl, m1, c2, hm, _, ha, _⟩ := h
  rw [assert_eq_ok] at ha0 ha
  subst ha0 ha
  obtain ⟨t0, ht0, hk0⟩ := IsTypeName_eq_ok hb0
  obtain ⟨m, hc, hrun, ts, hts, hks⟩ := IsFunction.scan_inv toks _ cur c1 hl
  obtain ⟨t, ht, hcase⟩ := Match_eq_ok hm
  rcases hcase with ⟨_, hty, _⟩ | ⟨hb, _, _⟩
  · subst hc
    have hm0 : 0 < m := by
      rcases Nat.eq_zero_or_pos m with h0 | h0
      · subst h0
        simp only [Nat.add_zero] at hts
        rw [ht0] at hts
        cases hts
        rw [hk0] at hks
        cases hks
      · exact h0
    exact ⟨m, hm0, hrun, t, ht, hty⟩
  · cases hb

theorem typeRun_unique {toks : List Token} {cur m1 m2 : Nat}
    (h1 : typeRunAt toks cur m1) (s1 : ∃ t, toks[cur + m1]? = some t ∧ isTypeKw t.type = false)
    (h2 : typeRunAt toks cur m2) (s2 : ∃ t, toks[cur + m2]? = some t ∧ isTypeKw t.type = false) :
    m1 = m2 := by
  rcases Nat.lt_trichotomy m1 m2 with h | h | h
  · obtain ⟨t, ht, hk⟩ := h2 m1 h
    obtain ⟨u, hu, huk⟩ := s1
    rw [ht] at hu
    cases hu
    rw [hk] at huk
    cases huk
  · exact h
  · obtain ⟨t, ht, hk⟩ := h1 m2 h
    obtain ⟨u, hu, huk⟩ := s2
    rw [ht] at hu
    cases hu
    rw [hk] at huk
    cases huk

/-! ## Global declarations -/

theorem ParseConstantExpr_inv {toks : List Token} {cur after : Nat} {c : ConstantExpr}
    (h : ParseConstantExpr toks cur = .ok (c, after)) :
    after = cur ∧ ∃ t, toks[cur]? = some t ∧
      (t.type = .char_constant ∨ t.type = .string_literal ∨ t.type = .numeric_constant) := by
  unfold ParseConstantExpr at h
  simp only [bind_eq_ok] at h
  obtain ⟨⟨type, value⟩, ht, h⟩ := h
  have hshape : type = .char_constant ∨ type = .string_literal ∨ type = .numeric_constant := by
    by_contra hn
    simp only [not_or] at hn
    cases type <;>
      first
      | exact absurd rfl hn.1
      | exact absurd rfl hn.2.1
      | exact absurd rfl hn.2.2
      | simp at h
  refine ⟨?_, ⟨type, value⟩, tokAt_eq_ok.mp ht, hshape⟩
  rcases hshape with h1 | h1 | h1 <;> subst h1
  · simp only [bind_eq_ok, pure, Except.pure, Except.ok.injEq, Prod.mk.injEq] at h
    obtain ⟨_, _, _, h⟩ := h
    exact h.symm
  · simp only [bind_eq_ok, pure, Except.pure, Except.ok.injEq, Prod.mk.injEq] at h
    obtain ⟨_, _, _, h⟩ := h
    exact h.symm
  · cases value <;>
      (simp only [pure, Except.pure, Except.ok.injEq, Prod.mk.injEq] at h; exact h.2.symm)

theorem ParseGlobalDecl_literal_branch (toks : List Token) (cur c1 : Nat) (ty : Ty)
    (name : String) (t : Token) (init : ConstantExpr) (c4 : Nat)
    (hty : ParseType toks cur = .ok (ty, c1))
    (hid : toks[c1]? = some ⟨.identifier, .string name⟩)
    (ht : toks[c1 + 1]? = some t) (hne : t.type ≠ .equal)
    (hc : ParseConstantExpr toks (c1 + 1) = .ok (init, c4)) :
    c4 = c1 + 1 ∧ Match toks c4 .semi = .ok (false, c4) ∧
      ParseGlobalDecl toks cur = .error .assertFail := by
  obtain ⟨hc4, u, hu, hkind⟩ := ParseConstantExpr_inv hc
  subst hc4
  rw [ht] at hu
  cases hu
  have hsemi : t.type ≠ .semi := by
    rcases hkind with h | h | h <;> rw [h] <;> decide
  have hM2 : Match toks (c1 + 1) .semi = .ok (false, c1 + 1) := Match_miss ht hsemi
  refine ⟨rfl, hM2, ?_⟩
  have hT := ParseType_ok_isTypeName hty
  have htok : tokAt toks c1 = .ok ⟨.identifier, .string name⟩ := tokAt_eq_ok.mpr hid
  have hE : Expect toks c1 .identifier = .ok true := by
    simp [Expect, htok, bind, Except.bind, pure, Except.pure]
  have hC : Consume toks c1 .identifier = .ok (true, c1 + 1) := by
    simp [Consume, htok, bind, Except.bind, pure, Except.pure]
  have hm : Match toks (c1 + 1) .equal = .ok (false, c1 + 1) := Match_miss ht hne
  unfold ParseGlobalDecl
  simp only [hT, hty, hE, hC, htok, hm, hc, hM2, assert, getString, bind, Except.bind, pure,
    Except.pure, if_true]
  rfl

theorem ParseGlobalDecl_inv {toks : List Token} {cur after : Nat} {d : GlobalDecl}
    (h : ParseGlobalDecl toks cur = .ok (d, after)) :
    ∃ ty c1 name, ParseType toks cur = .ok (ty, c1) ∧
      toks[c1]? = some ⟨.identifier, .string name⟩ ∧
      kindAt toks (c1 + 1) .equal ∧ kindAt toks (c1 + 2) .semi ∧
      after = c1 + 3 ∧ d = ⟨ty, name, none⟩ := by
  have h0 := h
  unfold ParseGlobalDecl at h
  simp only [bind_eq_ok, Prod.exists] at h
  obtain ⟨_, _, _, _, ty, c1, hty, e, hE, _, _, t, ht, name, hn, _, c2, hC, m, c3, hm, h⟩ := h
  obtain ⟨hc2, t1, ht1, hk1⟩ := Consume_eq_ok hC
  have htt := tokAt_eq_ok.mp ht
  rw [htt] at ht1
  cases ht1
  obtain ⟨type, value⟩ := t
  simp only at hk1
  subst hk1
  have hval : value = .string name := by
    cases value <;> simp [getString] at hn
    exact congrArg _ hn
  subst hval hc2
  refine ⟨ty, c1, name, hty, htt, ?_⟩
  obtain ⟨te, hte, hcase⟩ := Match_eq_ok hm
  rcases hcase with ⟨hb, hty2, hc3⟩ | ⟨hb, hty2, hc3⟩
  · subst hb hc3
    simp only [if_true, bind_eq_ok, Prod.exists, pure, Except.pure, Except.ok.injEq,
      Prod.mk.injEq] at h
    obtain ⟨m2, c4, hm2, _, ha, hd, hafter⟩ := h
    rw [assert_eq_ok] at ha
    subst ha
    obtain ⟨ts, hts, hcase2⟩ := Match_eq_ok hm2
    rcases hcase2 with ⟨_, htys, hc4⟩ | ⟨hb2, _, _⟩
    · exact ⟨⟨te, hte, hty2⟩, ⟨ts, hts, htys⟩, by omega, hd.symm⟩
    · cases hb2
  · subst hb hc3
    simp only [Bool.false_eq_true, if_false, bind_eq_ok, Prod.exists] at h
    obtain ⟨init, c4, hc, _⟩ := h
    have := (ParseGlobalDecl_literal_branch toks cur c1 ty name te init c4 hty htt hte hty2 hc).2.2
    rw [this] at h0
    cases h0

theorem IsFunction_cursor {toks : List Token} {cur after : Nat} {b : Bool}
    (h : IsFunction toks cur = .ok (b, after)) : after = cur := by
  unfold IsFunction at h
  simp only [bind_eq_ok, pure, Except.pure, Except.ok.injEq, Prod.mk.injEq] at h
  obtain ⟨_, _, _, _, _, _, _, _, _, _, _, _, _, h⟩ := h
  exact h.symm

theorem Parse.loop_top_level (toks : List Token) :
    ∀ (fuel cur : Nat) (funcs : List Function) (decls : List GlobalDecl)
      (prog : Program) (c : Nat),
      Parse.loop toks fuel cur funcs decls = .ok (prog, c) →
      c = toks.length ∧ ∃ items, TopLevelRun toks cur items ∧
        prog.funcs = funcs ++ items.filterMap Sum.getLeft? ∧
        prog.decls = decls ++ items.filterMap Sum.getRight?
  | 0, _, _, _, _, _, h => by simp [Parse.loop] at h
  | fuel + 1, cur, funcs, decls, prog, c, h => by
    rw [Parse.loop] at h
    by_cases hend : cur = toks.length
    · simp [hend, pure, Except.pure] at h
      obtain ⟨hp, hc⟩ := h
      subst hp
      exact ⟨by omega, [], hend, by simp, by simp⟩
    · rw [if_pos hend] at h
      simp only [bind_eq_ok, Prod.exists] at h
      obtain ⟨isF, c1, hF, h⟩ := h
      have hc1 := IsFunction_cursor hF
      subst hc1
      cases isF with
      | true =>
        simp only [if_true, bind_eq_ok, Prod.exists] at h
        obtain ⟨f, c2, hf, h⟩ := h
        obtain ⟨hc, items, hrun, hfs, hds⟩ :=
          Parse.loop_top_level toks fuel c2 (funcs ++ [f]) decls prog c h
        exact ⟨hc, .inl f :: items, ⟨hend, hF, fuel, c2, hf, hrun⟩, by simp [hfs], by simp [hds]⟩
      | false =>
        simp only [Bool.false_eq_true, if_false, bind_eq_ok, Prod.exists] at h
        obtain ⟨d, c2, hd, h⟩ := h
        obtain ⟨hc, items, hrun, hfs, hds⟩ :=
          Parse.loop_top_level toks fuel c2 funcs (decls ++ [d]) prog c h
        exact ⟨hc, .inr d :: items, ⟨hend, hF, c2, hd, hrun⟩, by simp [hfs], by simp [hds]⟩

theorem Parse_run {toks : List Token} {fuel c : Nat} {prog : Program}
    (h : Parse toks fuel = .ok (prog, c)) :
    c = toks.length ∧ ∃ items, TopLevelRun toks 0 items ∧
      prog.funcs = items.filterMap Sum.getLeft? ∧
      prog.decls = items.filterMap Sum.getRight? := by
  obtain ⟨hc, items, hrun, hf, hd⟩ := Parse.loop_top_level toks fuel 0 [] [] prog c h
  exact ⟨hc, items, hrun, by simpa using hf, by simpa using hd⟩

/-- C13: whenever `Parse` returns a `Program`, the cursor is at the end of the
token stream and there is a sequence of top-level constructs, read one after
the other from the first token to the end, such that the program's functions
are the results of `ParseFunction` on the constructs where `IsFunction`
answered true, in source order, and its global declarations are the results
of `ParseGlobalDecl` on the constructs where it answered false, in source
order. -/
theorem Parse_partitions_top_level (toks : List Token) (fuel c : Nat) (prog : Program)
    (h : Parse toks fuel = .ok (prog, c)) :
    c = toks.length ∧ ∃ items, TopLevelRun toks 0 items ∧
      prog.funcs = items.filterMap Sum.getLeft? ∧
      prog.decls = items.filterMap Sum.getRight? :=
  Parse_run h

/-- C13 on the tokens of `int x = ; long foo ( ) ;`: one declaration, then one
function. -/
theorem Parse_partitions_top_level_witness :
    (9 : Nat) = toksDeclThenFunction.length ∧ ∃ items, TopLevelRun toksDeclThenFunction 0 items ∧
      Program.funcs ⟨[⟨.PrimaryType [.Long], "foo", [], none⟩],
          [⟨.PrimaryType [.Int], "x", none⟩]⟩ = items.filterMap Sum.getLeft? ∧
      Program.decls ⟨[⟨.PrimaryType [.Long], "foo", [], none⟩],
          [⟨.PrimaryType [.Int], "x", none⟩]⟩ = items.filterMap Sum.getRight? :=
  Parse_partitions_top_level toksDeclThenFunction 3 9
    ⟨[⟨.PrimaryType [.Long], "foo", [], none⟩], [⟨.PrimaryType [.Int], "x", none⟩]⟩ rfl

/-! ## Top-level types -/

theorem typeRunAt_tail {toks : List Token} {cur m : Nat}
    (h : typeRunAt toks cur (m + 1)) : typeRunAt toks (cur + 1) m := by
  intro i hi
  obtain ⟨t, ht, hk⟩ := h (i + 1) (by omega)
  exact ⟨t, by rw [← ht]; congr 1; omega, hk⟩

theorem IsTypeName_of {toks : List Token} {cur : Nat} {t : Token}
    (ht : toks[cur]? = some t) : IsTypeName toks cur = .ok (isTypeKw t.type) := by
  simp [IsTypeName, tokAt_eq_ok.mpr ht, bind, Except.bind, pure, Except.pure]

theorem IsFunction.loop_forward (toks : List Token) :
    ∀ (m fuel cur : Nat) (t : Token), typeRunAt toks cur m → toks[cur + m]? = some t →
      isTypeKw t.type = false → m < fuel → IsFunction.loop toks fuel cur = .ok (cur + m)
  | 0, fuel, cur, t, _, ht, hk, hf => by
    obtain ⟨n, rfl⟩ : ∃ n, fuel = n + 1 := ⟨fuel - 1, by omega⟩
    have ht1 : toks[cur]? = some t := by simpa using ht
    rw [IsFunction.loop, IsTypeName_of ht1, hk]
    rfl
  | m + 1, fuel, cur, t, hrun, ht, hk, hf => by
    obtain ⟨n, rfl⟩ : ∃ n, fuel = n + 1 := ⟨fuel - 1, by omega⟩
    obtain ⟨u, hu, huk⟩ := hrun 0 (by omega)
    have hu1 : toks[cur]? = some u := by simpa using hu
    have ih := IsFunction.loop_forward toks m n (cur + 1) t (typeRunAt_tail hrun)
      (by rw [← ht]; congr 1; omega) hk (by omega)
    rw [IsFunction.loop, IsTypeName_of hu1, huk]
    show IsFunction.loop toks n (cur + 1) = .ok (cur + (m + 1))
    rw [ih]
    congr 1
    omega

theorem IsFunction_abort_unless_identifier (toks : List Token) (cur m : Nat) (t : Token)
    (hm : 0 < m) (hrun : typeRunAt toks cur m) (ht : toks[cur + m]? = some t)
    (hk : isTypeKw t.type = false) (hid : t.type ≠ .identifier) :
    IsFunction toks cur = .error .assertFail := by
  obtain ⟨u, hu, huk⟩ := hrun 0 hm
  have hu1 : toks[cur]? = some u := by simpa using hu
  have hlen : cur + m < toks.length := by
    rcases Nat.lt_or_ge (cur + m) toks.length with h | h
    · exact h
    · rw [List.getElem?_eq_none h] at ht
      cases ht
  have hl := IsFunction.loop_forward toks m (toks.length - cur + 1) cur t hrun ht hk (by omega)
  unfold IsFunction
  rw [IsTypeName_of hu1, huk, hl]
  simp only [Match_miss ht hid, assert, bind, Except.bind, if_true]
  rfl

theorem ParseType_primary_of_IsFunction {toks : List Token} {cur after c1 : Nat} {b : Bool}
    {ty : Ty} (hF : IsFunction toks cur = .ok (b, after))
    (hty : ParseType toks cur = .ok (ty, c1)) : ∃ kinds, ty = .PrimaryType kinds := by
  obtain ⟨m1, _, hrun1, t1, ht1, hk1⟩ := IsFunction_inv hF
  obtain ⟨m, n, kinds, _, _, htyeq, _, hrun, hstars, hstop, _⟩ := ParseType_inv hty
  have hstop1 : ∃ t, toks[cur + m1]? = some t ∧ isTypeKw t.type = false :=
    ⟨t1, ht1, by rw [hk1]; rfl⟩
  have hmm : m1 = m := typeRun_unique hrun1 hstop1 hrun hstop
  subst hmm
  cases n with
  | zero => exact ⟨kinds, htyeq⟩
  | succ n =>
    obtain ⟨u, hu, huk⟩ := hstars 0 (by omega)
    rw [Nat.add_zero, ht1] at hu
    cases hu
    rw [hk1] at huk
    cases huk

theorem ParseFunction.header_type {toks : List Token} {cur p : Nat}
    {r : Ty × String × List (Ty × String)}
    (h : ParseFunction.header toks cur = .ok (r, p)) :
    ∃ c1, ParseType toks cur = .ok (r.1, c1) := by
  unfold ParseFunction.header at h
  simp only [bind_eq_ok, pure, Except.pure, Except.ok.injEq, Prod.mk.injEq, Prod.exists] at h
  obtain ⟨_, _, _, _, ty, c1, hty, _, _, _, _, _, _, _, _, _, _, _, _, _, _, _, _, _, _,
    _, _, _, _, hr, _⟩ := h
  subst hr
  exact ⟨c1, hty⟩

theorem ParseFunction_header {toks : List Token} {fuel cur after : Nat} {f : Function}
    (h : ParseFunction toks fuel cur = .ok (f, after)) :
    ∃ name params p, ParseFunction.header toks cur = .ok ((f.retType, name, params), p) ∧
      ∃ t, toks[p]? = some t ∧
        ((t.type = .semi ∧ f.body = none) ∨
         (t.type ≠ .semi ∧ ∃ b, ParseBlockStmt toks fuel p = .ok (b, after) ∧ f.body = some b)) := by
  unfold ParseFunction at h
  rw [bind_eq_ok] at h
  obtain ⟨⟨⟨retType, funcName, params⟩, p⟩, hh, h⟩ := h
  simp only [] at h
  rw [bind_eq_ok] at h
  obtain ⟨t, ht, h⟩ := h
  by_cases hs : t.type = .semi
  · rw [if_pos hs, bind_eq_ok] at h
    obtain ⟨⟨b, c6⟩, hc, h⟩ := h
    simp only [pure, Except.pure, Except.ok.injEq, Prod.mk.injEq] at h
    obtain ⟨hf, ha⟩ := h
    subst hf
    exact ⟨funcName, params, p, hh, t, tokAt_eq_ok.mp ht, Or.inl ⟨hs, rfl⟩⟩
  · rw [if_neg hs, bind_eq_ok] at h
    obtain ⟨⟨b, c6⟩, hb, h⟩ := h
    simp only [pure, Except.pure, Except.ok.injEq, Prod.mk.injEq] at h
    obtain ⟨hf, ha⟩ := h
    subst hf ha
    exact ⟨funcName, params, p, hh, t, tokAt_eq_ok.mp ht, Or.inr ⟨hs, b, hb, rfl⟩⟩

theorem TopLevelRun_primary (toks : List Token) :
    ∀ (items : List (Function ⊕ GlobalDecl)) (cur : Nat), TopLevelRun toks cur items →
      (∀ f ∈ items.filterMap Sum.getLeft?, ∃ kinds, f.retType = .PrimaryType kinds) ∧
      (∀ d ∈ items.filterMap Sum.getRight?, ∃ kinds, d.ty = .PrimaryType kinds)
  | [], _, _ => by simp
  | .inl f :: rest, cur, h => by
    obtain ⟨_, hF, fuel, c2, hf, hrest⟩ := h
    obtain ⟨ih1, ih2⟩ := TopLevelRun_primary toks rest c2 hrest
    obtain ⟨name, params, p, hh, _⟩ := ParseFunction_header hf
    obtain ⟨c1, hty⟩ := ParseFunction.header_type hh
    have hp := ParseType_primary_of_IsFunction hF hty
    constructor
    · intro g hg
      simp only [List.filterMap_cons, Sum.getLeft?_inl, List.mem_cons] at hg
      rcases hg with rfl | hg
      · exact hp
      · exact ih1 g hg
    · intro d hd
      simp only [List.filterMap_cons, Sum.getRight?_inl] at hd
      exact ih2 d hd
  | .inr d :: rest, cur, h => by
    obtain ⟨_, hF, c2, hd, hrest⟩ := h
    obtain ⟨ih1, ih2⟩ := TopLevelRun_primary toks rest c2 hrest
    obtain ⟨ty, c1, name, hty, _, _, _, _, hdeq⟩ := ParseGlobalDecl_inv hd
    have hp := ParseType_primary_of_IsFunction hF hty
    constructor
    · intro g hg
      simp only [List.filterMap_cons, Sum.getLeft?_inr] at hg
      exact ih1 g hg
    · intro e he
      simp only [List.filterMap_cons, Sum.getRight?_inr, List.mem_cons] at he
      rcases he with rfl | he
      · subst hdeq
        exact hp
      · exact ih2 e he

/-- C20: whenever `Parse` returns a `Program`, the return type of every one of
its functions and the type of every one of its global declarations is a
`PrimaryType`, never a `PointerType`.  `IsFunction` aborts when the token that
follows the run of type specifiers is not an identifier, in particular when it
is a `*`. -/
theorem Parse_top_level_types_primary (toks : List Token) (fuel c : Nat) (prog : Program)
    (h : Parse toks fuel = .ok (prog, c)) :
    (∀ f ∈ prog.funcs, ∃ kinds, f.retType = .PrimaryType kinds) ∧
    (∀ d ∈ prog.decls, ∃ kinds, d.ty = .PrimaryType kinds) ∧
    (∀ cur m t, 0 < m → typeRunAt toks cur m → toks[cur + m]? = some t →
      isTypeKw t.type = false → t.type ≠ .identifier →
      IsFunction toks cur = .error .assertFail) := by
  obtain ⟨_, items, hrun, hf, hd⟩ := Parse_run h
  obtain ⟨h1, h2⟩ := TopLevelRun_primary toks items 0 hrun
  rw [hf, hd]
  exact ⟨h1, h2, fun cur m t hm hr ht hk hid =>
    IsFunction_abort_unless_identifier toks cur m t hm hr ht hk hid⟩

/-- C20 on the tokens of `int x = ; long foo ( ) ;`, whose program has the
types `long` and `int`. -/
theorem Parse_top_level_types_primary_witness :
    (∀ f ∈ Program.funcs ⟨[⟨.PrimaryType [.Long], "foo", [], none⟩],
        [⟨.PrimaryType [.Int], "x", none⟩]⟩, ∃ kinds, f.retType = .PrimaryType kinds) ∧
    (∀ d ∈ Program.decls ⟨[⟨.PrimaryType [.Long], "foo", [], none⟩],
        [⟨.PrimaryType [.Int], "x", none⟩]⟩, ∃ kinds, d.ty = .PrimaryType kinds) :=
  ⟨(Parse_top_level_types_primary toksDeclThenFunction 3 9
      ⟨[⟨.PrimaryType [.Long], "foo", [], none⟩], [⟨.PrimaryType [.Int], "x", none⟩]⟩ rfl).1,
   (Parse_top_level_types_primary toksDeclThenFunction 3 9
      ⟨[⟨.PrimaryType [.Long], "foo", [], none⟩], [⟨.PrimaryType [.Int], "x", none⟩]⟩ rfl).2.1⟩

/-! ## A parameter list that is not closed -/

theorem ParseType_abort_of_not_type {toks : List Token} {cur : Nat} {t : Token}
    (ht : toks[cur]? = some t) (hk : isTypeKw t.type = false) :
    ParseType toks cur = .error .assertFail := by
  unfold ParseType
  rw [ParseType.loop, IsTypeName_of ht, hk]
  rfl

theorem ParseFunction.params_abort {toks : List Token} {c : Nat} {t : Token}
    (n : Nat) (acc : List (Ty × String))
    (ht : toks[c]? = some t) (hp : t.type ≠ .r_paren) (hk : isTypeKw t.type = false) :
    ParseFunction.params toks (n + 1) c acc = .error .assertFail := by
  rw [ParseFunction.params]
  simp only [tokAt_eq_ok.mpr ht, bind, Except.bind, hp, ne_eq, not_false_eq_true, if_true,
    ParseType_abort_of_not_type ht hk]

theorem ParseFunction.params_advance (toks : List Token) :
    ∀ (ps : List (Ty × String)) (c c1 n : Nat) (acc : List (Ty × String)),
      ParamsParsed toks c ps c1 →
      ParseFunction.params toks (n + ps.length) c acc =
        ParseFunction.params toks n c1 (acc ++ ps)
  | [], c, c1, n, acc, h => by
    have hc : c = c1 := h
    subst hc
    simp
  | (ty, name) :: rest, c, c1, n, acc, h => by
    obtain ⟨⟨t, ht, hp⟩, c2, hty, hcase⟩ := h
    have hlen : n + ((ty, name) :: rest).length = (n + rest.length) + 1 := by
      simp only [List.length_cons]; omega
    rw [hlen, ParseFunction.params]
    simp only [tokAt_eq_ok.mpr ht, bind, Except.bind, hp, ne_eq, not_false_eq_true, if_true,
      hty]
    rcases hcase with ⟨⟨tc, htc, hkc⟩, hname, hrest⟩ | ⟨hid, hrest⟩
    · subst hname
      rw [Match_hit htc hkc]
      simp only [if_true]
      rw [ParseFunction.params_advance toks rest (c2 + 1) c1 n (acc ++ [(ty, "")]) hrest]
      simp
    · rw [Match_miss hid (by simp)]
      simp only [Bool.false_eq_true, if_false, tokAt_eq_ok.mpr hid, assert, decide_True,
        if_true, getString, Consume, pure, Except.pure, bind, Except.bind]
      rw [ParseFunction.params_advance toks rest (c2 + 1) c1 n (acc ++ [(ty, name)]) hrest]
      simp

theorem ParamsParsed_length (toks : List Token) :
    ∀ (ps : List (Ty × String)) (c c1 : Nat), ParamsParsed toks c ps c1 →
      c + ps.length ≤ c1
  | [], c, c1, h => by
    have hc : c = c1 := h
    simp [hc]
  | (ty, name) :: rest, c, c1, h => by
    obtain ⟨_, c2, hty, hcase⟩ := h
    obtain ⟨m, n, _, _, hc2, _⟩ := ParseType_inv hty
    have hrest : ParamsParsed toks (c2 + 1) rest c1 := by
      rcases hcase with ⟨_, _, hr⟩ | ⟨_, hr⟩ <;> exact hr
    have := ParamsParsed_length toks rest (c2 + 1) c1 hrest
    simp only [List.length_cons]
    omega

/-- C14: when the return type, the function name and `(` have been read, the
parameter loop has parsed zero or more parameters, and the token then under
the cursor is neither `)` nor a type specifier, `ParseFunction` aborts on a
failed assertion, with any amount of fuel, and returns no `Function`. -/
theorem ParseFunction_unclosed_params_abort (toks : List Token) (fuel cur c1 c : Nat)
    (retType : Ty) (funcName : String) (ps : List (Ty × String)) (t : Token)
    (hty : ParseType toks cur = .ok (retType, c1))
    (hid : toks[c1]? = some ⟨.identifier, .string funcName⟩)
    (hlp : kindAt toks (c1 + 1) .l_paren)
    (hps : ParamsParsed toks (c1 + 2) ps c)
    (ht : toks[c]? = some t) (hp : t.type ≠ .r_paren) (hk : isTypeKw t.type = false) :
    ParseFunction toks fuel cur = .error .assertFail ∧
    ∀ r, ParseFunction toks fuel cur ≠ .ok r := by
  have hmain : ParseFunction toks fuel cur = .error .assertFail := by
    have hT := ParseType_ok_isTypeName hty
    have htok : tokAt toks c1 = .ok ⟨.identifier, .string funcName⟩ := tokAt_eq_ok.mpr hid
    have hE : Expect toks c1 .identifier = .ok true := by
      simp [Expect, htok, bind, Except.bind, pure, Except.pure]
    have hC : Consume toks c1 .identifier = .ok (true, c1 + 1) := by
      simp [Consume, htok, bind, Except.bind, pure, Except.pure]
    obtain ⟨tl, htl, hkl⟩ := hlp
    have hM : Match toks (c1 + 1) .l_paren = .ok (true, c1 + 1 + 1) := Match_hit htl hkl
    have hlen : c < toks.length := by
      rcases Nat.lt_or_ge c toks.length with h | h
      · exact h
      · rw [List.getElem?_eq_none h] at ht
        cases ht
    have hadv := ParamsParsed_length toks ps (c1 + 2) c hps
    have hfuel : toks.length - (c1 + 1 + 1) + 1 =
        (toks.length - (c1 + 2) - ps.length + 1) + ps.length := by omega
    have hloop : ParseFunction.params toks (toks.length - (c1 + 1 + 1) + 1) (c1 + 1 + 1) [] =
        .error .assertFail := by
      rw [hfuel, ParseFunction.params_advance toks ps (c1 + 2) c _ [] hps]
      exact ParseFunction.params_abort _ _ ht hp hk
    unfold ParseFunction ParseFunction.header
    simp only [hT, hty, hE, hC, htok, hM, hloop, assert, getString, bind, Except.bind, pure,
      Except.pure, if_true]
  exact ⟨hmain, fun r hr => by rw [hmain] at hr; cases hr⟩

/-- C14 on the tokens of `int foo ( int a ;`: after the parameter `int a` the
token is `;` and the parse aborts. -/
theorem ParseFunction_unclosed_params_abort_witness :
    ParseFunction toksFooMissingParen 5 0 = .error .assertFail :=
  (ParseFunction_unclosed_params_abort toksFooMissingParen 5 0 1 5 (.PrimaryType [.Int])
    "foo" [(.PrimaryType [.Int], "a")] (tk .semi) rfl rfl ⟨tk .l_paren, rfl, rfl⟩
    ⟨⟨tk .kw_int, rfl, by decide⟩, 4, rfl, Or.inr ⟨rfl, rfl⟩⟩ rfl (by decide) rfl).1

/-! ## Statements of a parsed program -/

theorem Stmt.allPlain_append (a b : List Stmt) :
    Stmt.allPlain (a ++ b) = (Stmt.allPlain a && Stmt.allPlain b) := by
  induction a with
  | nil => simp [Stmt.allPlain]
  | cons s a ih => simp [Stmt.allPlain, ih, Bool.and_assoc]

theorem ParseExprUnless_eq_ok {toks : List Token} {fuel cur c : Nat} {stop : TokenType}
    {e : Option Expr} (h : ParseExprUnless toks fuel cur stop = .ok (e, c)) :
    e = none ∧ c = cur := by
  unfold ParseExprUnless at h
  simp only [bind_eq_ok] at h
  obtain ⟨p, _, h⟩ := h
  cases p with
  | true =>
    simp [pure, Except.pure] at h
    exact ⟨h.1.symm, h.2.symm⟩
  | false =>
    simp only [Bool.not_false, if_true, bind_eq_ok, Prod.exists] at h
    obtain ⟨e1, c1, he, _⟩ := h
    exact absurd he (ParseExpr_ne_ok toks fuel cur (e1, c1))

theorem ParseIfStmt_ne_ok (toks : List Token) (fuel cur : Nat) (r : Stmt × Nat) :
    ParseIfStmt toks fuel cur ≠ .ok r := by
  intro h
  cases fuel with
  | zero => simp [ParseIfStmt] at h
  | succ n =>
    rw [ParseIfStmt] at h
    simp only [bind_eq_ok, Prod.exists] at h
    obtain ⟨_, _, _, _, c2, _, _, _, e, c3, he, _⟩ := h
    exact ParseExpr_ne_ok toks n c2 (e, c3) he

theorem ParseWhileStmt_ne_ok (toks : List Token) (fuel cur : Nat) (r : Stmt × Nat) :
    ParseWhileStmt toks fuel cur ≠ .ok r := by
  intro h
  cases fuel with
  | zero => simp [ParseWhileStmt] at h
  | succ n =>
    rw [ParseWhileStmt] at h
    simp only [bind_eq_ok, Prod.exists] at h
    obtain ⟨_, _, _, _, c2, _, _, _, e, c3, he, _⟩ := h
    exact ParseExpr_ne_ok toks n c2 (e, c3) he

theorem ParseDoWhileStmt_ne_ok (toks : List Token) (fuel cur : Nat) (r : Stmt × Nat) :
    ParseDoWhileStmt toks fuel cur ≠ .ok r := by
  intro h
  cases fuel with
  | zero => simp [ParseDoWhileStmt] at h
  | succ n =>
    rw [ParseDoWhileStmt] at h
    simp only [bind_eq_ok, Prod.exists] at h
    obtain ⟨_, _, _, _, _, _, _, _, _, _, _, _, c4, _, _, _, e, c5, he, _⟩ := h
    exact ParseExpr_ne_ok toks n c4 (e, c5) he

theorem ParseForDeclStmt_ne_ok (toks : List Token) (fuel cur : Nat) (r : Stmt × Nat) :
    ParseForDeclStmt toks fuel cur ≠ .ok r := by
  intro h
  cases fuel with
  | zero => simp [ParseForDeclStmt] at h
  | succ n =>
    rw [ParseForDeclStmt] at h
    simp only [bind_eq_ok, Prod.exists] at h
    obtain ⟨_, _, _, _, c2, _, _, _, _, _, _, _, d, c3, hd, _⟩ := h
    exact ParseDeclStmt_ne_ok toks n c2 (d, c3) hd

theorem ParseExprStmt_ne_ok_of_not_semi {toks : List Token} {cur : Nat} {t : Token}
    (ht : toks[cur]? = some t) (hk : t.type ≠ .semi) (fuel : Nat) (r : Stmt × Nat) :
    ParseExprStmt toks fuel cur ≠ .ok r := by
  intro h
  unfold ParseExprStmt at h
  rw [Peek_eq ht] at h
  simp only [hk, decide_False, bind_eq_ok, Prod.exists, Except.ok.injEq, exists_eq_left',
    Bool.false_eq_true, if_false] at h
  obtain ⟨e, c, he, _⟩ := h
  exact ParseExpr_ne_ok toks fuel cur (e, c) he

theorem ParseStmt_unfold {toks : List Token} {cur : Nat} {t : Token}
    (ht : toks[cur]? = some t) (fuel : Nat) :
    ParseStmt toks (fuel + 1) cur =
      if t.type = .kw_if then ParseIfStmt toks fuel cur
      else if t.type = .kw_do then ParseDoWhileStmt toks fuel cur
      else if t.type = .kw_while then ParseWhileStmt toks fuel cur
      else if t.type = .kw_for then (do
        let (_, c1) ← Consume toks cur .kw_for
        let (_, c2) ← Match toks c1 .l_paren
        let b ← IsTypeName toks c2
        if b then ParseForDeclStmt toks fuel cur else ParseForStmt toks fuel cur)
      else if isTypeKw t.type then (do
        let (d, c1) ← ParseDeclStmt toks fuel cur
        pure (.Declaration d, c1))
      else if t.type = .kw_break then ParseBreakStmt toks cur
      else if t.type = .kw_continue then ParseContinueStmt toks cur
      else if t.type = .kw_return then ParseReturnStmt toks fuel cur
      else if t.type = .l_brace then (do
        let (b, c1) ← ParseBlockStmt toks fuel cur
        pure (.BlockStmt b.stmts, c1))
      else (do
        let _ ← Expect toks cur .identifier
        ParseExprStmt toks fuel cur) := by
  rw [ParseStmt]
  simp only [Peek_eq ht, IsTypeName_of ht, bind, Except.bind, pure, Except.pure,
    decide_eq_true_eq]

theorem Peek_eq_ok_true {toks : List Token} {cur : Nat} {type : TokenType}
    (h : Peek toks cur type = .ok true) : kindAt toks cur type := by
  unfold Peek at h
  simp only [bind_eq_ok, pure, Except.pure, Except.ok.injEq, decide_eq_true_eq] at h
  obtain ⟨t, ht, hk⟩ := h
  exact ⟨t, tokAt_eq_ok.mp ht, hk⟩

theorem ParseStmt_semi_ne_ok {toks : List Token} {cur : Nat} (hs : kindAt toks cur .semi)
    (fuel : Nat) (r : Stmt × Nat) : ParseStmt toks fuel cur ≠ .ok r := by
  obtain ⟨t, ht, hk⟩ := hs
  intro h
  cases fuel with
  | zero => simp [ParseStmt] at h
  | succ n =>
    rw [ParseStmt_unfold ht, hk] at h
    simp [isTypeKw, Expect, tokAt_eq_ok.mpr ht, hk, bind, Except.bind] at h

theorem ParseBlockStmt.loop_semi_ne_ok {toks : List Token} {cur : Nat}
    (hs : kindAt toks cur .semi) (fuel : Nat) (acc : List Stmt) (r : List Stmt × Nat) :
    ParseBlockStmt.loop toks fuel cur acc ≠ .ok r := by
  intro h
  cases fuel with
  | zero => simp [ParseBlockStmt.loop] at h
  | succ n =>
    obtain ⟨t, ht, hk⟩ := hs
    rw [ParseBlockStmt.loop] at h
    simp only [tokAt_eq_ok.mpr ht, hk, bind, Except.bind] at h
    simp only [ne_eq, reduceCtorEq, not_false_eq_true, if_true] at h
    cases hS : ParseStmt toks n cur with
    | error e => rw [hS] at h; cases h
    | ok v => exact ParseStmt_semi_ne_ok ⟨t, ht, hk⟩ n v hS

theorem ParseStmt_plain_or_semi (toks : List Token) :
    ∀ fuel : Nat,
      (∀ cur s c, ParseStmt toks fuel cur = .ok (s, c) →
        s.isPlain = true ∨ kindAt toks c .semi) ∧
      (∀ cur acc ss c, ParseBlockStmt.loop toks fuel cur acc = .ok (ss, c) →
        Stmt.allPlain acc = true → Stmt.allPlain ss = true) ∧
      (∀ cur b c, ParseBlockStmt toks fuel cur = .ok (b, c) →
        Stmt.allPlain b.stmts = true) ∧
      (∀ cur s c, ParseForStmt toks fuel cur = .ok (s, c) →
        s.isPlain = true ∨ kindAt toks c .semi)
  | 0 => by
    refine ⟨?_, ?_, ?_, ?_⟩
    · intro cur s c h; simp [ParseStmt] at h
    · intro cur acc ss c h; simp [ParseBlockStmt.loop] at h
    · intro cur b c h; simp [ParseBlockStmt] at h
    · intro cur s c h; simp [ParseForStmt] at h
  | fuel + 1 => by
    obtain ⟨ihA, ihB, ihC, ihD⟩ := ParseStmt_plain_or_semi toks fuel
    refine ⟨?_, ?_, ?_, ?_⟩
    · intro cur s c h
      cases htok : toks[cur]? with
      | none =>
        rw [ParseStmt] at h
        simp [Peek, tokAt, htok, bind, Except.bind] at h
      | some t =>
        rw [ParseStmt_unfold htok] at h
        split_ifs at h with h1 h2 h3 h4 h5 h6 h7 h8 h9
        · exact absurd h (ParseIfStmt_ne_ok toks fuel cur _)
        · exact absurd h (ParseDoWhileStmt_ne_ok toks fuel cur _)
        · exact absurd h (ParseWhileStmt_ne_ok toks fuel cur _)
        · simp only [bind_eq_ok, Prod.exists] at h
          obtain ⟨_, c1, _, _, c2, _, b, _, h⟩ := h
          cases b with
          | true => exact absurd h (ParseForDeclStmt_ne_ok toks fuel cur _)
          | false => exact ihD cur s c h
        · simp only [bind_eq_ok, Prod.exists] at h
          obtain ⟨d, c1, hd, _⟩ := h
          exact absurd hd (ParseDeclStmt_ne_ok toks fuel cur _)
        · unfold ParseBreakStmt at h
          simp only [bind_eq_ok, Prod.exists, pure, Except.pure, Except.ok.injEq,
            Prod.mk.injEq] at h
          obtain ⟨_, _, _, _, _, hs, _⟩ := h
          subst hs
          exact Or.inl rfl
        · unfold ParseContinueStmt at h
          simp only [bind_eq_ok, Prod.exists, pure, Except.pure, Except.ok.injEq,
            Prod.mk.injEq] at h
          obtain ⟨_, _, _, _, _, hs, _⟩ := h
          subst hs
          exact Or.inl rfl
        · unfold ParseReturnStmt at h
          simp only [bind_eq_ok, Prod.exists] at h
          obtain ⟨_, c1, _, _, _, p, hp, h⟩ := h
          cases p with
          | true =>
            simp [pure, Except.pure] at h
            obtain ⟨_, hc⟩ := h
            subst hc
            exact Or.inr (Peek_eq_ok_true hp)
          | false =>
            simp only [Bool.false_eq_true, if_false, bind_eq_ok, Prod.exists] at h
            obtain ⟨e, c2, he, _⟩ := h
            exact absurd he (ParseExpr_ne_ok toks fuel c1 _)
        · simp only [bind_eq_ok, Prod.exists, pure, Except.pure, Except.ok.injEq,
            Prod.mk.injEq] at h
          obtain ⟨b, c1, hb, hs, _⟩ := h
          subst hs
          left
          have := ihC cur b c1 hb
          simpa [Stmt.isPlain] using this
        · simp only [bind_eq_ok] at h
          obtain ⟨e, hE, h⟩ := h
          have hid : t.type = .identifier := by
            unfold Expect at hE
            rw [tokAt_eq_ok.mpr htok] at hE
            by_cases hk : t.type = .identifier
            · exact hk
            · simp [hk, bind, Except.bind] at hE
          exact absurd h (ParseExprStmt_ne_ok_of_not_semi htok (by rw [hid]; decide) fuel _)
    · intro cur acc ss c h hacc
      rw [ParseBlockStmt.loop] at h
      simp only [bind_eq_ok] at h
      obtain ⟨t, ht, h⟩ := h
      by_cases hk : t.type = .r_brace
      · simp [hk, pure, Except.pure] at h
        rw [← h.1]
        exact hacc
      · simp only [ne_eq, hk, not_false_eq_true, if_true, bind_eq_ok, Prod.exists] at h
        obtain ⟨s, c1, hs, h⟩ := h
        rcases ihA cur s c1 hs with hp | hsemi
        · exact ihB c1 (acc ++ [s]) ss c h (by simp [Stmt.allPlain_append, Stmt.allPlain, hacc, hp])
        · exact absurd h (ParseBlockStmt.loop_semi_ne_ok hsemi fuel _ _)
    · intro cur b c h
      rw [ParseBlockStmt] at h
      simp only [bind_eq_ok, Prod.exists, pure, Except.pure, Except.ok.injEq,
        Prod.mk.injEq] at h
      obtain ⟨_, c1, _, _, _, stmts, c2, hl, _, _, _, hb, _⟩ := h
      subst hb
      exact ihB c1 [] stmts c2 hl rfl
    · intro cur s c h
      rw [ParseForStmt] at h
      simp only [bind_eq_ok, Prod.exists, pure, Except.pure, Except.ok.injEq,
        Prod.mk.injEq] at h
      obtain ⟨_, _, _, _, _, _, _, _, i1, _, hi1, _, _, _, _, _, i2, _, hi2, _, _, _, _, _,
        i3, _, hi3, _, _, _, _, _, stmt, c9, hst, hs, hc⟩ := h
      obtain ⟨e1, _⟩ := ParseExprUnless_eq_ok hi1
      obtain ⟨e2, _⟩ := ParseExprUnless_eq_ok hi2
      obtain ⟨e3, _⟩ := ParseExprUnless_eq_ok hi3
      subst e1 e2 e3 hs hc
      rcases ihA _ stmt c9 hst with hp | hsemi
      · exact Or.inl (by simpa [Stmt.isPlain] using hp)
      · exact Or.inr hsemi

theorem TopLevelRun_bodies_plain (toks : List Token) :
    ∀ (items : List (Function ⊕ GlobalDecl)) (cur : Nat), TopLevelRun toks cur items →
      ∀ f ∈ items.filterMap Sum.getLeft?, ∀ b, f.body = some b →
        Stmt.allPlain b.stmts = true
  | [], _, _ => by simp
  | .inl f :: rest, cur, h => by
    obtain ⟨_, _, fuel, c2, hf, hrest⟩ := h
    have ih := TopLevelRun_bodies_plain toks rest c2 hrest
    intro g hg b hb
    simp only [List.filterMap_cons, Sum.getLeft?_inl, List.mem_cons] at hg
    rcases hg with rfl | hg
    · obtain ⟨_, _, p, _, t, _, hcase⟩ := ParseFunction_header hf
      rcases hcase with ⟨_, hnone⟩ | ⟨_, b1, hb1, hsome⟩
      · rw [hnone] at hb
        cases hb
      · have e : b1 = b := by
          rw [hsome] at hb
          exact Option.some.inj hb
        rw [← e]
        exact (ParseStmt_plain_or_semi toks fuel).2.2.1 p b1 c2 hb1
    · exact ih g hg b hb
  | .inr d :: rest, cur, h => by
    obtain ⟨_, _, c2, _, hrest⟩ := h
    have ih := TopLevelRun_bodies_plain toks rest c2 hrest
    intro g hg b hb
    simp only [List.filterMap_cons, Sum.getLeft?_inr] at hg
    exact ih g hg b hb

/-- C16: whenever `Parse` returns a `Program`, every statement anywhere inside
the body of any of its functions is a `BlockStmt`, a `BreakStmt`, a
`ContinueStmt` or a `ForStmt` whose init, cond and post are absent.  The
productions for `if`, `while`, `do`, the `for` with a declaration and the
declaration never return; a statement that `ParseStmt` returns is of the kind
above or leaves the cursor on a `;`, and at a `;` the loop of the enclosing
block returns nothing. -/
theorem Parse_bodies_plain (toks : List Token) (fuel c : Nat) (prog : Program)
    (h : Parse toks fuel = .ok (prog, c)) :
    (∀ f ∈ prog.funcs, ∀ b, f.body = some b → Stmt.allPlain b.stmts = true) ∧
    (∀ n cur r, ParseIfStmt toks n cur ≠ .ok r) ∧
    (∀ n cur r, ParseWhileStmt toks n cur ≠ .ok r) ∧
    (∀ n cur r, ParseDoWhileStmt toks n cur ≠ .ok r) ∧
    (∀ n cur r, ParseForDeclStmt toks n cur ≠ .ok r) ∧
    (∀ n cur r, ParseDeclStmt toks n cur ≠ .ok r) ∧
    (∀ n cur s c1, ParseStmt toks n cur = .ok (s, c1) →
      s.isPlain = true ∨ kindAt toks c1 .semi) ∧
    (∀ n cur acc r, kindAt toks cur .semi → ParseBlockStmt.loop toks n cur acc ≠ .ok r) := by
  obtain ⟨_, items, hrun, hf, _⟩ := Parse_run h
  rw [hf]
  exact ⟨TopLevelRun_bodies_plain toks items 0 hrun,
    fun n cur r => ParseIfStmt_ne_ok toks n cur r,
    fun n cur r => ParseWhileStmt_ne_ok toks n cur r,
    fun n cur r => ParseDoWhileStmt_ne_ok toks n cur r,
    fun n cur r => ParseForDeclStmt_ne_ok toks n cur r,
    fun n cur r => ParseDeclStmt_ne_ok toks n cur r,
    fun n => (ParseStmt_plain_or_semi toks n).1,
    fun n cur acc r hs => ParseBlockStmt.loop_semi_ne_ok hs n acc r⟩

/-- C16 on the tokens of `int foo ( ) { break { continue } for ( ; ; ) break }`:
the body that `Parse` returns is made of plain statements. -/
theorem Parse_bodies_plain_witness :
    Stmt.allPlain [.BreakStmt, .BlockStmt [.ContinueStmt],
      .ForStmt none none none .BreakStmt] = true :=
  (Parse_bodies_plain toksFooPlainBody 12 16
    ⟨[⟨.PrimaryType [.Int], "foo", [],
      some ⟨[.BreakStmt, .BlockStmt [.ContinueStmt], .ForStmt none none none .BreakStmt]⟩⟩],
     []⟩ rfl).1 _ (List.mem_singleton.mpr rfl) _ rfl

end lcc
